import Mathlib

/-! Greenlight: validator helpers, store initialisation and the serve/shutdown lifecycle.

A shallow embedding of

* `internal/validator/validator.go` (`Validator`, `AddError`, `Check`, `Valid`, `Unique`),
* `cmd/api/main.go` (`openDB`, `main`),
* `cmd/api/server.go` (`application.serve` and its signal goroutine).

Go maps are association lists with unique keys, Go `error` values are `Option GoError`
(`none` is `nil`), and the two goroutines of `serve` are a labelled transition system
whose states carry the program counter and locals of each goroutine together with the
log of observable events in the order in which they happened.
-/

set_option autoImplicit false

namespace Greenlight

/-! ## Go maps -/

/-- A Go `map[K]V`: an association list in which every key occurs at most once. -/
abbrev GoMap (K V : Type) := List (K × V)

namespace GoMap

variable {K V : Type} [DecidableEq K]

/-- Builtin `make(map[K]V)`. -/
def empty : GoMap K V := []

/-- Comma-ok read `v, ok := m[k]`; `none` stands for `ok == false`. -/
def lookup (m : GoMap K V) (k : K) : Option V :=
  match m with
  | [] => none
  | (k', v') :: rest => if k' = k then some v' else lookup rest k

/-- Assignment `m[k] = v`: overwrites the entry of `k` when there is one, adds one otherwise. -/
def set (m : GoMap K V) (k : K) (v : V) : GoMap K V :=
  match m with
  | [] => [(k, v)]
  | (k', v') :: rest => if k' = k then (k, v) :: rest else (k', v') :: set rest k v

/-- Builtin `len(m)`. -/
def len (m : GoMap K V) : Nat := m.length

end GoMap

/-! ## `internal/validator` -/

/-- Generic `Unique[T comparable](values []T) bool`: every value is stored as a key of a
fresh map and the two lengths are compared. -/
def Unique {T : Type} [DecidableEq T] (values : List T) : Bool :=
  let uniqueValues : GoMap T Bool :=
    values.foldl (fun m value => GoMap.set m value true) GoMap.empty
  values.length == GoMap.len uniqueValues

/-- The `Validator` struct: a map of validation errors. -/
structure Validator where
  Errors : GoMap String String
  deriving DecidableEq, Repr

namespace Validator

/-- Constructor `New()`: a validator with an empty errors map. -/
def New : Validator := { Errors := GoMap.empty }

/-- Method `Valid()`: the errors map has no entry. -/
def Valid (v : Validator) : Bool := GoMap.len v.Errors == 0

/-- Method `AddError(key, message)`: writes only when the key has no entry yet. -/
def AddError (v : Validator) (key message : String) : Validator :=
  match GoMap.lookup v.Errors key with
  | some _ => v
  | none => { Errors := GoMap.set v.Errors key message }

/-- Method `Check(ok, key, message)`: adds the error only if the check is not ok. -/
def Check (v : Validator) (ok : Bool) (key message : String) : Validator :=
  if !ok then v.AddError key message else v

end Validator

/-- One call made on a validator by its client. -/
inductive Call
  | AddError (key message : String)
  | Check (ok : Bool) (key message : String)
  deriving DecidableEq, Repr

/-- Effect of one call. -/
def Call.apply (v : Validator) : Call → Validator
  | .AddError key message => v.AddError key message
  | .Check ok key message => v.Check ok key message

/-- The key and message of a call that reports a failure: every `AddError`, and a `Check`
whose `ok` is false. -/
def Call.failure : Call → Option (String × String)
  | .AddError key message => some (key, message)
  | .Check ok key message => if ok then none else some (key, message)

/-- A validator made by `New()` after a sequence of calls, oldest first. -/
def runCalls (calls : List Call) : Validator :=
  calls.foldl Call.apply Validator.New

/-- The message of the first failing call for `key`, if any. -/
def firstFailure (calls : List Call) (key : String) : Option String :=
  match calls with
  | [] => none
  | c :: rest =>
    match c.failure with
    | some (k, m) => if k = key then some m else firstFailure rest key
    | none => firstFailure rest key


/-! ## Errors, signals and the store -/

/-- A non-nil Go `error` value. A Go `error` that may be `nil` is an `Option GoError`. -/
inductive GoError
  | ErrServerClosed
  | DeadlineExceeded
  | Other (code : Nat)
  deriving DecidableEq, Repr

/-- The test `errors.Is(err, http.ErrServerClosed)` on a non-nil error. -/
def isErrServerClosed : GoError → Bool
  | .ErrServerClosed => true
  | _ => false

/-- The two signals registered with `signal.Notify`. -/
inductive Signal
  | SIGINT
  | SIGTERM
  deriving DecidableEq, Repr

/-- The `db` part of the `config` struct. -/
structure DbConfig where
  dsn : String
  maxOpenConns : Int
  maxIdleConns : Int
  maxIdleTime : String
  deriving DecidableEq, Repr

/-- The fields of the `config` struct read by `main`, `openDB` and `serve`; the limiter, smtp
and cors settings are handed to collaborators only. -/
structure Config where
  port : Int
  env : String
  db : DbConfig
  deriving DecidableEq, Repr

/-- The parsed command line: the configuration and the `-version` flag. -/
structure CommandLine where
  cfg : Config
  displayVersion : Bool
  deriving DecidableEq, Repr

/-- A `*sql.DB` pool, as the record of what the setters were last called with (`none`: the
setter was not called and the library default applies). -/
structure DB where
  dsn : String
  maxOpenConns : Option Int
  maxIdleConns : Option Int
  connMaxIdleTime : Option Int
  deriving DecidableEq, Repr

namespace DB

def SetMaxOpenConns (db : DB) (n : Int) : DB := { db with maxOpenConns := some n }

def SetMaxIdleConns (db : DB) (n : Int) : DB := { db with maxIdleConns := some n }

def SetConnMaxIdleTime (db : DB) (d : Int) : DB := { db with connMaxIdleTime := some d }

end DB

/-- The library calls whose outcome `openDB` does not control: whether `sql.Open` fails for
a driver name and a DSN, what `time.ParseDuration` makes of a string (nanoseconds), and what
`PingContext` reports for a pool under a deadline given in seconds (a ping that exceeds
the deadline reports an error, as any other failure does). -/
structure Env where
  sqlOpen : String → String → Option GoError
  parseDuration : String → Except GoError Int
  pingContext : DB → Nat → Option GoError

/-- A call made by `openDB`, in program order. -/
inductive DBOp
  | Open (driver dsn : String)
  | WithTimeout (seconds : Nat)
  | SetMaxOpenConns (n : Int)
  | SetMaxIdleConns (n : Int)
  | ParseDuration (s : String)
  | SetConnMaxIdleTime (d : Int)
  | PingContext (deadlineSeconds : Nat)
  | Cancel
  deriving DecidableEq, Repr

/-- The pool just returned by a successful `sql.Open`. -/
def freshPool (dsn : String) : DB :=
  { dsn := dsn, maxOpenConns := none, maxIdleConns := none, connMaxIdleTime := none }

/-- Function `openDB(cfg) (*sql.DB, error)`: the returned pair and the calls made. The
deferred `cancel()` runs at every return that follows `context.WithTimeout`. -/
def openDB (env : Env) (cfg : Config) : (Option DB × Option GoError) × List DBOp :=
  match env.sqlOpen "postgres" cfg.db.dsn with
  | some err => ((none, some err), [.Open "postgres" cfg.db.dsn])
  | none =>
    let db := freshPool cfg.db.dsn
    let db := db.SetMaxOpenConns cfg.db.maxOpenConns
    let db := db.SetMaxIdleConns cfg.db.maxIdleConns
    let ops : List DBOp :=
      [.Open "postgres" cfg.db.dsn, .WithTimeout 5, .SetMaxOpenConns cfg.db.maxOpenConns,
        .SetMaxIdleConns cfg.db.maxIdleConns, .ParseDuration cfg.db.maxIdleTime]
    match env.parseDuration cfg.db.maxIdleTime with
    | .error err => ((none, some err), ops ++ [.Cancel])
    | .ok duration =>
      let db := db.SetConnMaxIdleTime duration
      let ops := ops ++ [.SetConnMaxIdleTime duration, .PingContext 5]
      match env.pingContext db 5 with
      | some err => ((none, some err), ops ++ [.Cancel])
      | none => ((some db, none), ops ++ [.Cancel])

/-- The pool on which the three setters were called with the configured values and the
parsed idle duration. -/
def configuredPool (cfg : Config) (duration : Int) : DB :=
  { dsn := cfg.db.dsn, maxOpenConns := some cfg.db.maxOpenConns,
    maxIdleConns := some cfg.db.maxIdleConns, connMaxIdleTime := some duration }

/-! ## The process: `main`, `serve` and the signal goroutine -/

/-- What the process does that can be observed, one entry per statement executed. A call
of `logger.PrintInfo` is the log entry it writes (spec §6: log events at fixed points). -/
inductive Event
  | PrintVersion                            -- fmt.Printf("Version:...")
  | Store (op : DBOp)                       -- a call made inside openDB
  | LogFatal (err : GoError)                -- logger.PrintFatal(err, nil): the log entry
  | Exit (code : Nat)                       -- the process ends with this exit code
  | LogPoolEstablished                      -- "database connection pool established"
  | ServeCalled                             -- app.serve() is entered
  | GoSignalGoroutine                       -- go func() { ... }()
  | LogStarting                             -- "starting server "
  | ListenAndServeCalled                    -- srv.ListenAndServe() is entered
  | ListenAndServeReturned (err : GoError)  -- srv.ListenAndServe() returns err
  | RecvAttempt                             -- serve starts `<-shutdownError`
  | LogStopped                              -- "stopped server"
  | ServeReturned (err : Option GoError)    -- app.serve() returns err
  | DBClose                                 -- the deferred db.Close()
  | SignalReceived (s : Signal)             -- s := <-quit
  | LogShuttingDown (s : Signal)            -- "shutting down server", signal: s.String()
  | ShutdownCalled (deadlineSeconds : Nat)  -- srv.Shutdown(ctx), ctx with this timeout
  | ShutdownReturned (err : Option GoError) -- srv.Shutdown(ctx) returns err
  | SendAttempt (v : Option GoError)        -- the goroutine starts `shutdownError <- v`
  | ChanTransfer (v : Option GoError)       -- v passes from the sender to the receiver
  | LogCompleting                           -- "completing background tasks"
  | WaitCalled                              -- app.wg.Wait() is entered
  | WaitReturned                            -- app.wg.Wait() returns
  deriving DecidableEq, Repr

/-- The `return` statement through which `serve` is left: `return err` after
`ListenAndServe`, `return err` after the receive, or the final `return nil`. -/
inductive ServeExit
  | fatal (err : GoError)
  | shutdownErr (err : GoError)
  | ok
  deriving DecidableEq, Repr

/-- The value returned by `serve`. -/
def ServeExit.value : ServeExit → Option GoError
  | .fatal err => some err
  | .shutdownErr err => some err
  | .ok => none

/-- The statement at which the process ended: `os.Exit(0)` after printing the version,
`PrintFatal` after `openDB`, `PrintFatal` after `serve`, or the return of `main`. -/
inductive ExitPoint
  | version
  | openDBFailed
  | serveFailed (x : ServeExit)
  | returned
  deriving DecidableEq, Repr

/-- Program counter and locals of the main goroutine, in `main` and then in `serve`. -/
inductive MainPc
  | start                             -- main: after flag.Parse()
  | serveEntry                        -- main: at `err = app.serve()`
  | logStarting                       -- serve: at PrintInfo("starting server ", ...)
  | callListen                        -- serve: at `err := srv.ListenAndServe()`
  | inListenAndServe                  -- serve: inside srv.ListenAndServe()
  | afterListen (err : GoError)       -- serve: at `if !errors.Is(err, http.ErrServerClosed)`
  | recv                              -- serve: blocked in `err = <-shutdownError`
  | afterRecv (err : Option GoError)  -- serve: at `if err != nil` after the receive
  | serveReturn (x : ServeExit)       -- serve: at a `return`
  | afterServe (x : ServeExit)        -- main: at `if err != nil` after serve
  | mainReturned                      -- main: has returned, db.Close() has run
  | exited (at_ : ExitPoint)          -- the process has ended
  deriving DecidableEq, Repr

/-- Program counter and locals (`s`, `err`) of the goroutine started by `serve`. -/
inductive SigPc
  | notStarted                                -- before the `go` statement
  | waitSignal                                -- blocked in `s := <-quit`
  | logShutting (s : Signal)                  -- at PrintInfo("shutting down server", ...)
  | callShutdown (s : Signal)                 -- at `err := srv.Shutdown(ctx)`
  | inShutdown (s : Signal)                   -- inside srv.Shutdown(ctx)
  | afterShutdown (s : Signal) (err : Option GoError)  -- at `if err != nil`
  | sendErr (s : Signal) (err : GoError)      -- blocked in `shutdownError <- err`
  | logCompleting (s : Signal) (err : GoError)  -- past that send, at PrintInfo("completing...")
  | callWait (s : Signal) (err : Option GoError)   -- at `app.wg.Wait()`
  | inWait (s : Signal) (err : Option GoError)     -- inside app.wg.Wait()
  | afterWait (s : Signal) (err : Option GoError)  -- at `shutdownError <- nil`
  | sendNil (s : Signal) (err : Option GoError)    -- blocked in `shutdownError <- nil`
  | done (s : Signal) (err : Option GoError)       -- the goroutine has returned
  deriving DecidableEq, Repr

/-- The whole process. -/
structure State where
  main : MainPc
  sig : SigPc
  log : List Event
  deriving DecidableEq, Repr

/-- The process at the start of `main`, after `flag.Parse()`. -/
def init : State := { main := .start, sig := .notStarted, log := [] }

/-- What makes the process move: a goroutine runs its next statement, or a blocking call
returns with a result that the goroutine does not choose (`ListenAndServe`, the signal
channel, `Shutdown`, `wg.Wait`), or the unbuffered channel `shutdownError` passes a value
from a blocked sender to a blocked receiver. `srv.ListenAndServe` returns a non-nil error, as
`net/http` documents; nothing else is assumed about when and with what it returns. -/
inductive Action
  | main
  | listenReturns (err : GoError)
  | signal (s : Signal)
  | sig
  | shutdownReturns (err : Option GoError)
  | waitReturns
  | handoff
  deriving DecidableEq, Repr

/-- Modelled from the spec: `jsonlog.Logger.PrintFatal` is not among the sources. By §4.4
and §7 every fatal condition is logged and then terminates the whole process, with a
non-zero exit code (§6); deferred calls do not run. These are the events of one call. -/
def PrintFatal (err : GoError) : List Event := [.LogFatal err, .Exit 1]

/-- Whether the process is still alive. -/
def MainPc.alive : MainPc → Bool
  | .exited _ => false
  | _ => true

/-- Method `application.serve`, run by the main goroutine: its next statement. The server
value, the channel and the `go` statement are one step, since the signal goroutine does not
exist before; a blocking call (`ListenAndServe`, the receive) is left by an action of its
own, see `step`. -/
def serve (st : State) : Option State :=
  match st.main with
  | .serveEntry =>
    some { main := .logStarting, sig := .waitSignal,
           log := st.log ++ [.ServeCalled, .GoSignalGoroutine] }
  | .logStarting => some { st with main := .callListen, log := st.log ++ [.LogStarting] }
  | .callListen =>
    some { st with main := .inListenAndServe, log := st.log ++ [.ListenAndServeCalled] }
  | .afterListen err =>
    if isErrServerClosed err then
      some { st with main := .recv, log := st.log ++ [.RecvAttempt] }
    else
      some { st with main := .serveReturn (.fatal err) }
  | .afterRecv (some err) => some { st with main := .serveReturn (.shutdownErr err) }
  | .afterRecv none => some { st with main := .serveReturn .ok, log := st.log ++ [.LogStopped] }
  | .serveReturn x =>
    some { st with main := .afterServe x, log := st.log ++ [.ServeReturned x.value] }
  | _ => none

/-- Function `main`, from `flag.Parse()` on: its next statement. The first step runs up to
the call of `serve` (the `expvar` publications have no part in what follows); while `serve`
runs, the next statement is that of `serve`. -/
def main (cl : CommandLine) (env : Env) (st : State) : Option State :=
  match st.main with
  | .start =>
    if cl.displayVersion then
      some { st with main := .exited .version, log := st.log ++ [.PrintVersion, .Exit 0] }
    else
      match openDB env cl.cfg with
      | ((_, some err), ops) =>
        some { st with main := .exited .openDBFailed,
                       log := st.log ++ ops.map Event.Store ++ PrintFatal err }
      | ((_, none), ops) =>
        some { st with main := .serveEntry,
                       log := st.log ++ ops.map Event.Store ++ [.LogPoolEstablished] }
  | .afterServe x =>
    match x.value with
    | some err =>
      some { st with main := .exited (.serveFailed x), log := st.log ++ PrintFatal err }
    | none => some { st with main := .mainReturned, log := st.log ++ [.DBClose] }
  | .mainReturned => some { st with main := .exited .returned, log := st.log ++ [.Exit 0] }
  | .exited _ => none
  | _ => serve st

/-- The goroutine started by `serve` with `go func() { ... }()`: its next statement. The
timeout of the context handed to `srv.Shutdown` is 20 seconds. After `if err != nil` the
goroutine either starts the send of `err` or, with a nil `err`, goes on to the log entry. -/
def stepSig (st : State) : Option State :=
  match st.sig with
  | .logShutting s =>
    some { st with sig := .callShutdown s, log := st.log ++ [.LogShuttingDown s] }
  | .callShutdown s =>
    some { st with sig := .inShutdown s, log := st.log ++ [.ShutdownCalled 20] }
  | .afterShutdown s (some err) =>
    some { st with sig := .sendErr s err, log := st.log ++ [.SendAttempt (some err)] }
  | .afterShutdown s none =>
    some { st with sig := .callWait s none, log := st.log ++ [.LogCompleting] }
  | .logCompleting s err =>
    some { st with sig := .callWait s (some err), log := st.log ++ [.LogCompleting] }
  | .callWait s err => some { st with sig := .inWait s err, log := st.log ++ [.WaitCalled] }
  | .afterWait s err =>
    some { st with sig := .sendNil s err, log := st.log ++ [.SendAttempt none] }
  | _ => none

/-- One move of the process; `none` when the action is not enabled. Nothing moves once the
process has exited. -/
def step (cl : CommandLine) (env : Env) (st : State) (a : Action) : Option State :=
  if st.main.alive then
    match a with
    | .main => main cl env st
    | .listenReturns err =>
      match st.main with
      | .inListenAndServe =>
        some { st with main := .afterListen err, log := st.log ++ [.ListenAndServeReturned err] }
      | _ => none
    | .signal s =>
      match st.sig with
      | .waitSignal => some { st with sig := .logShutting s, log := st.log ++ [.SignalReceived s] }
      | _ => none
    | .sig => stepSig st
    | .shutdownReturns err =>
      match st.sig with
      | .inShutdown s =>
        some { st with sig := .afterShutdown s err, log := st.log ++ [.ShutdownReturned err] }
      | _ => none
    | .waitReturns =>
      match st.sig with
      | .inWait s err => some { st with sig := .afterWait s err, log := st.log ++ [.WaitReturned] }
      | _ => none
    | .handoff =>
      match st.main, st.sig with
      | .recv, .sendErr s err =>
        some { main := .afterRecv (some err), sig := .logCompleting s err,
               log := st.log ++ [.ChanTransfer (some err)] }
      | .recv, .sendNil s err =>
        some { main := .afterRecv none, sig := .done s err,
               log := st.log ++ [.ChanTransfer none] }
      | _, _ => none
  else none

/-- Running a schedule from a state. -/
def run (cl : CommandLine) (env : Env) (st : State) : List Action → Option State
  | [] => some st
  | a :: rest => (step cl env st a).bind (fun st' => run cl env st' rest)

/-- The states of the executions of `main`. -/
def Reachable (cl : CommandLine) (env : Env) (st : State) : Prop :=
  ∃ schedule, run cl env init schedule = some st

/-- In `log`, every event satisfying `b` comes after an event satisfying `a`. -/
def Precedes (a b : Event → Bool) (log : List Event) : Prop :=
  ∀ pre e post, log = pre ++ e :: post → b e = true → ∃ x ∈ pre, a x = true

/-! ## The events of each goroutine -/

/-- Events of the main goroutine; a channel transfer belongs to both goroutines. -/
def Event.ofMain : Event → Bool
  | .SignalReceived _ => false
  | .LogShuttingDown _ => false
  | .ShutdownCalled _ => false
  | .ShutdownReturned _ => false
  | .SendAttempt _ => false
  | .LogCompleting => false
  | .WaitCalled => false
  | .WaitReturned => false
  | _ => true

/-- Events of the signal goroutine; a channel transfer belongs to both goroutines. -/
def Event.ofSig : Event → Bool
  | .SignalReceived _ => true
  | .LogShuttingDown _ => true
  | .ShutdownCalled _ => true
  | .ShutdownReturned _ => true
  | .SendAttempt _ => true
  | .ChanTransfer _ => true
  | .LogCompleting => true
  | .WaitCalled => true
  | .WaitReturned => true
  | _ => false

/-- Events of `main` up to and including the `go` statement of `serve`. -/
def startupEvents (cl : CommandLine) (env : Env) : List Event :=
  (openDB env cl.cfg).2.map Event.Store ++ [.LogPoolEstablished, .ServeCalled, .GoSignalGoroutine]

/-- Events of `serve` from the return of `ListenAndServe` to its `return` statement. -/
def serveExitEvents : ServeExit → List Event
  | .fatal err => [.ListenAndServeReturned err]
  | .shutdownErr err =>
    [.ListenAndServeReturned .ErrServerClosed, .RecvAttempt, .ChanTransfer (some err)]
  | .ok => [.ListenAndServeReturned .ErrServerClosed, .RecvAttempt, .ChanTransfer none, .LogStopped]

/-- The events of the main goroutine so far, as fixed by its program counter and locals. -/
def mainTrace (cl : CommandLine) (env : Env) : MainPc → List Event
  | .start => []
  | .serveEntry => (openDB env cl.cfg).2.map Event.Store ++ [.LogPoolEstablished]
  | .logStarting => startupEvents cl env
  | .callListen => startupEvents cl env ++ [.LogStarting]
  | .inListenAndServe => startupEvents cl env ++ [.LogStarting, .ListenAndServeCalled]
  | .afterListen err =>
    startupEvents cl env ++ [.LogStarting, .ListenAndServeCalled, .ListenAndServeReturned err]
  | .recv =>
    startupEvents cl env ++ [.LogStarting, .ListenAndServeCalled,
      .ListenAndServeReturned .ErrServerClosed, .RecvAttempt]
  | .afterRecv v =>
    startupEvents cl env ++ [.LogStarting, .ListenAndServeCalled,
      .ListenAndServeReturned .ErrServerClosed, .RecvAttempt, .ChanTransfer v]
  | .serveReturn x =>
    startupEvents cl env ++ [.LogStarting, .ListenAndServeCalled] ++ serveExitEvents x
  | .afterServe x =>
    startupEvents cl env ++ [.LogStarting, .ListenAndServeCalled] ++ serveExitEvents x ++
      [.ServeReturned x.value]
  | .mainReturned =>
    startupEvents cl env ++ [.LogStarting, .ListenAndServeCalled] ++ serveExitEvents .ok ++
      [.ServeReturned none, .DBClose]
  | .exited .version => [.PrintVersion, .Exit 0]
  | .exited .openDBFailed =>
    (openDB env cl.cfg).2.map Event.Store ++
      (match (openDB env cl.cfg).1.2 with
       | some err => PrintFatal err
       | none => [])
  | .exited (.serveFailed x) =>
    startupEvents cl env ++ [.LogStarting, .ListenAndServeCalled] ++ serveExitEvents x ++
      [.ServeReturned x.value] ++
      (match x.value with
       | some err => PrintFatal err
       | none => [])
  | .exited .returned =>
    startupEvents cl env ++ [.LogStarting, .ListenAndServeCalled] ++ serveExitEvents .ok ++
      [.ServeReturned none, .DBClose, .Exit 0]

/-- Events of the signal goroutine from the signal to the end of its `if err != nil`. -/
def shutdownEvents (s : Signal) (err : Option GoError) : List Event :=
  [.SignalReceived s, .LogShuttingDown s, .ShutdownCalled 20, .ShutdownReturned err] ++
    (match err with
     | some e => [.SendAttempt (some e), .ChanTransfer (some e)]
     | none => [])

/-- The events of the signal goroutine so far, as fixed by its program counter and locals. -/
def sigTrace : SigPc → List Event
  | .notStarted => []
  | .waitSignal => []
  | .logShutting s => [.SignalReceived s]
  | .callShutdown s => [.SignalReceived s, .LogShuttingDown s]
  | .inShutdown s => [.SignalReceived s, .LogShuttingDown s, .ShutdownCalled 20]
  | .afterShutdown s err =>
    [.SignalReceived s, .LogShuttingDown s, .ShutdownCalled 20, .ShutdownReturned err]
  | .sendErr s e =>
    [.SignalReceived s, .LogShuttingDown s, .ShutdownCalled 20, .ShutdownReturned (some e),
      .SendAttempt (some e)]
  | .logCompleting s e => shutdownEvents s (some e)
  | .callWait s err => shutdownEvents s err ++ [.LogCompleting]
  | .inWait s err => shutdownEvents s err ++ [.LogCompleting, .WaitCalled]
  | .afterWait s err => shutdownEvents s err ++ [.LogCompleting, .WaitCalled, .WaitReturned]
  | .sendNil s err =>
    shutdownEvents s err ++ [.LogCompleting, .WaitCalled, .WaitReturned, .SendAttempt none]
  | .done s err =>
    shutdownEvents s err ++
      [.LogCompleting, .WaitCalled, .WaitReturned, .SendAttempt none, .ChanTransfer none]

/-- The first `return err` of `serve` is taken only with an error that is not
`http.ErrServerClosed`. -/
def ServeExit.wf : ServeExit → Bool
  | .fatal err => !isErrServerClosed err
  | _ => true

/-- The locals of the main goroutine are values it can hold at that point. -/
def MainPc.wf : MainPc → Bool
  | .serveReturn x => x.wf
  | .afterServe x => x.wf
  | .exited (.serveFailed x) => x.wf && x.value.isSome
  | _ => true

/-- The main goroutine has not reached the `go` statement of `serve`. -/
def MainPc.beforeGo : MainPc → Bool
  | .start => true
  | .serveEntry => true
  | _ => false

/-- The log of a state is an interleaving of the traces fixed by the two program counters. -/
structure Inv (cl : CommandLine) (env : Env) (st : State) : Prop where
  main : st.log.filter Event.ofMain = mainTrace cl env st.main
  sig : st.log.filter Event.ofSig = sigTrace st.sig
  unborn : st.main.beforeGo = true → st.sig = .notStarted
  wf : st.main.wf = true

/-- Executable form of `Precedes`; `seen` tells whether an `a` event has occurred already. -/
def precedesFrom (a b : Event → Bool) (seen : Bool) : List Event → Bool
  | [] => true
  | e :: rest => (!(b e) || seen) && precedesFrom a b (seen || a e) rest

/-- Whether the event is a return of `serve`, with any value. -/
def Event.isServeReturned : Event → Bool
  | .ServeReturned _ => true
  | _ => false

/-- Whether the event is a return of `srv.Shutdown`, with any result. -/
def Event.isShutdownReturned : Event → Bool
  | .ShutdownReturned _ => true
  | _ => false

/-- Whether the event is a value passing through the `shutdownError` channel. -/
def Event.isChanTransfer : Event → Bool
  | .ChanTransfer _ => true
  | _ => false

/-- Whether the event is the signal goroutine starting a send on `shutdownError`. -/
def Event.isSendAttempt : Event → Bool
  | .SendAttempt _ => true
  | _ => false

/-- A store that opens, accepts `"15m"` as an idle time and answers the ping. -/
def sampleEnv : Env :=
  { sqlOpen := fun _ _ => none
    parseDuration := fun s => if s = "15m" then .ok 900000000000 else .error (.Other 1)
    pingContext := fun _ _ => none }

/-- The default command line of `main`. -/
def sampleCommandLine : CommandLine :=
  { cfg := { port := 4000, env := "development",
             db := { dsn := "postgres://localhost/greenlight", maxOpenConns := 25,
                     maxIdleConns := 25, maxIdleTime := "15m" } }
    displayVersion := false }

/-- A graceful shutdown: SIGTERM arrives while serving, `Shutdown` and `wg.Wait` return,
`nil` goes through the channel, `serve` returns `nil` and `main` returns. -/
def gracefulSchedule : List Action :=
  [.main, .main, .main, .main, .signal .SIGTERM, .sig, .sig, .listenReturns .ErrServerClosed, .main,
    .shutdownReturns none, .sig, .sig, .waitReturns, .sig, .handoff, .main, .main, .main, .main]

/-- The steps of the signal goroutine other than its channel operations. -/
def Event.sigStep : Event → Bool
  | .SignalReceived _ => true
  | .LogShuttingDown _ => true
  | .ShutdownCalled _ => true
  | .ShutdownReturned _ => true
  | .LogCompleting => true
  | .WaitCalled => true
  | .WaitReturned => true
  | _ => false

/-- The steps of the signal goroutine after a signal, in program order. -/
def shutdownOrder (s : Signal) (err : Option GoError) : List Event :=
  [.SignalReceived s, .LogShuttingDown s, .ShutdownCalled 20, .ShutdownReturned err,
    .LogCompleting, .WaitCalled, .WaitReturned]

/-- Whether the event is the log entry "shutting down server", for any signal. -/
def Event.isLogShuttingDown : Event → Bool
  | .LogShuttingDown _ => true
  | _ => false

/-- Whether the event is a call of `srv.Shutdown`, with any deadline. -/
def Event.isShutdownCalled : Event → Bool
  | .ShutdownCalled _ => true
  | _ => false

/-- One move of a run that needs nothing more from outside than the return of `wg.Wait`:
the channel passes a value if it can, else the main goroutine runs, else the signal goroutine
runs, else `wg.Wait` returns. -/
def settleStep (cl : CommandLine) (env : Env) (st : State) : Option (Action × State) :=
  match step cl env st .handoff with
  | some st' => some (.handoff, st')
  | none =>
    match step cl env st .main with
    | some st' => some (.main, st')
    | none =>
      match step cl env st .sig with
      | some st' => some (.sig, st')
      | none =>
        match step cl env st .waitReturns with
        | some st' => some (.waitReturns, st')
        | none => none

/-- At most `n` such moves. -/
def settle (cl : CommandLine) (env : Env) : Nat → State → State
  | 0, st => st
  | n + 1, st =>
    match settleStep cl env st with
    | some (_, st') => settle cl env n st'
    | none => st

/-- Actions that take no value from outside the process. -/
def Action.internal : Action → Bool
  | .main => true
  | .sig => true
  | .handoff => true
  | .waitReturns => true
  | _ => false

/-- Where the process ends after a shutdown whose `srv.Shutdown` returned `err`. -/
def exitAfterShutdown : Option GoError → ExitPoint
  | none => .returned
  | some e => .serveFailed (.shutdownErr e)

/-- The process after `PrintFatal` on the error `e` returned by `openDB`. -/
def openDBFailedState (cl : CommandLine) (env : Env) (e : GoError) : State :=
  { main := .exited .openDBFailed, sig := .notStarted,
    log := (openDB env cl.cfg).2.map Event.Store ++ [.LogFatal e, .Exit 1] }

/-- A shutdown whose `srv.Shutdown` runs into its deadline: the error goes through the
channel, `serve` returns it and `main` ends the process. -/
def shutdownTimeoutSchedule : List Action :=
  [.main, .main, .main, .main, .signal .SIGTERM, .sig, .sig, .listenReturns .ErrServerClosed, .main,
    .shutdownReturns (some .DeadlineExceeded), .sig, .handoff, .main, .main, .main]

/-- The same shutdown in which the signal goroutine runs on after the handoff, up to its
second send, before `serve` returns. -/
def secondSendSchedule : List Action :=
  [.main, .main, .main, .main, .signal .SIGTERM, .sig, .sig, .listenReturns .ErrServerClosed, .main,
    .shutdownReturns (some .DeadlineExceeded), .sig, .handoff, .main, .sig, .sig, .waitReturns,
    .sig, .main]

/-- A listener that fails with another error while SIGTERM arrives: `serve` returns the
error without reading the channel, and the signal goroutine goes on to its send. -/
def listenFailureSchedule : List Action :=
  [.main, .main, .main, .main, .signal .SIGTERM, .listenReturns (.Other 98), .main, .sig, .sig,
    .shutdownReturns none, .sig, .sig, .waitReturns, .sig, .main]

/-- The process at the end of the graceful shutdown. -/
def gracefulEnd : State :=
  (run sampleCommandLine sampleEnv init gracefulSchedule).getD init

/-- The process while it serves: `ListenAndServe` has been called, no signal yet. -/
def servingState : State :=
  (run sampleCommandLine sampleEnv init [.main, .main, .main, .main]).getD init

/-- The process when `srv.Shutdown` has just returned nil and `serve` waits on the channel. -/
def drainingState : State :=
  (run sampleCommandLine sampleEnv init
    [.main, .main, .main, .main, .signal .SIGTERM, .sig, .sig, .listenReturns .ErrServerClosed, .main,
      .shutdownReturns none]).getD init

/-- A store that opens but does not answer the ping within the deadline. -/
def silentStoreEnv : Env :=
  { sqlOpen := fun _ _ => none
    parseDuration := fun s => if s = "15m" then .ok 900000000000 else .error (.Other 1)
    pingContext := fun _ _ => some .DeadlineExceeded }
/-! ### Map lemmas -/

namespace GoMap

variable {K V : Type} [DecidableEq K]

theorem lookup_set (m : GoMap K V) (k k' : K) (v : V) :
    lookup (set m k v) k' = if k = k' then some v else lookup m k' := by
  induction m with
  | nil => simp [set, lookup]
  | cons p rest ih =>
    obtain ⟨a, b⟩ := p
    by_cases h : a = k
    · subst h
      by_cases h' : a = k' <;> simp [set, lookup, h']
    · by_cases h' : a = k'
      · subst h'
        have : ¬ k = a := fun e => h e.symm
        simp [set, lookup, h, this]
      · simp [set, lookup, h, h', ih]

theorem keys_set (m : GoMap K V) (k : K) (v : V) :
    (set m k v).map Prod.fst =
      if k ∈ m.map Prod.fst then m.map Prod.fst else m.map Prod.fst ++ [k] := by
  induction m with
  | nil => simp [set]
  | cons p rest ih =>
    obtain ⟨a, b⟩ := p
    by_cases h : a = k
    · subst h
      simp [set]
    · have h' : ¬ k = a := fun e => h e.symm
      by_cases hm : k ∈ rest.map Prod.fst
      · simp only [set, h, if_false, List.map_cons, ih, hm, if_true, List.mem_cons, or_true]
      · simp only [set, h, if_false, List.map_cons, ih, hm, List.mem_cons, h', or_self,
          List.cons_append]

theorem lookup_eq_none_iff (m : GoMap K V) (k : K) :
    lookup m k = none ↔ k ∉ m.map Prod.fst := by
  induction m with
  | nil => simp [lookup]
  | cons p rest ih =>
    obtain ⟨a, b⟩ := p
    by_cases h : a = k
    · subst h
      simp [lookup]
    · have h' : ¬ k = a := fun e => h e.symm
      simp [lookup, h, h', ih]

end GoMap


/-! ### `Unique` -/

theorem GoMap.mem_keys_set {K V : Type} [DecidableEq K] (m : GoMap K V) (k k' : K) (v : V) :
    k' ∈ (GoMap.set m k v).map Prod.fst ↔ k' = k ∨ k' ∈ m.map Prod.fst := by
  rw [GoMap.keys_set]
  by_cases h : k ∈ m.map Prod.fst
  · rw [if_pos h]
    constructor
    · exact Or.inr
    · rintro (rfl | h')
      · exact h
      · exact h'
  · rw [if_neg h, List.mem_append, List.mem_singleton]
    tauto

theorem GoMap.nodup_keys_set {K V : Type} [DecidableEq K] (m : GoMap K V) (k : K) (v : V)
    (h : (m.map Prod.fst).Nodup) : ((GoMap.set m k v).map Prod.fst).Nodup := by
  rw [GoMap.keys_set]
  by_cases hk : k ∈ m.map Prod.fst
  · rw [if_pos hk]; exact h
  · rw [if_neg hk]
    exact List.Nodup.append h (List.nodup_singleton k) (by simpa using hk)

theorem keys_foldl_set {T : Type} [DecidableEq T] (values : List T) (m : GoMap T Bool)
    (h : (m.map Prod.fst).Nodup) :
    ((values.foldl (fun m value => GoMap.set m value true) m).map Prod.fst).Nodup ∧
      ∀ x, x ∈ (values.foldl (fun m value => GoMap.set m value true) m).map Prod.fst ↔
        x ∈ m.map Prod.fst ∨ x ∈ values := by
  induction values generalizing m with
  | nil => simp [h]
  | cons a rest ih =>
    have h1 := ih (GoMap.set m a true) (GoMap.nodup_keys_set m a true h)
    refine ⟨h1.1, fun x => ?_⟩
    rw [List.foldl_cons, h1.2 x, GoMap.mem_keys_set, List.mem_cons]
    tauto

theorem len_foldl_set {T : Type} [DecidableEq T] (values : List T) :
    GoMap.len (values.foldl (fun m value => GoMap.set m value true) (GoMap.empty : GoMap T Bool))
      = values.toFinset.card := by
  have h := keys_foldl_set values (GoMap.empty : GoMap T Bool) (by simp [GoMap.empty])
  have hlen : GoMap.len
      (values.foldl (fun m value => GoMap.set m value true) (GoMap.empty : GoMap T Bool))
      = ((values.foldl (fun m value => GoMap.set m value true)
          (GoMap.empty : GoMap T Bool)).map Prod.fst).length := by
    simp [GoMap.len]
  rw [hlen, ← List.toFinset_card_of_nodup h.1]
  congr 1
  ext x
  simp only [List.mem_toFinset]
  rw [h.2 x]
  simp [GoMap.empty]

theorem Unique_iff_nodup {T : Type} [DecidableEq T] (values : List T) :
    Unique values = true ↔ values.Nodup := by
  unfold Unique
  simp only [beq_iff_eq]
  rw [len_foldl_set]
  constructor
  · intro h
    have hd : values.dedup.length = values.length := by
      rw [← List.card_toFinset]; exact h.symm
    exact List.dedup_eq_self.mp ((List.dedup_sublist values).eq_of_length hd)
  · intro h
    exact (List.toFinset_card_of_nodup h).symm

/-- C9: for every slice (the empty one included) `Unique` returns true exactly when no value
occurs at two different indices. -/
theorem Unique_iff_pairwise_distinct {T : Type} [DecidableEq T] (values : List T) :
    Unique values = true ↔
      ∀ i j : Fin values.length, values.get i = values.get j → i = j := by
  rw [Unique_iff_nodup, List.nodup_iff_injective_get]
  rfl

/-! ### `Validator` -/

theorem Validator.lookup_AddError (v : Validator) (key message k : String) :
    GoMap.lookup (v.AddError key message).Errors k =
      match GoMap.lookup v.Errors k with
      | some m => some m
      | none => if key = k then some message else none := by
  unfold Validator.AddError
  cases hk : GoMap.lookup v.Errors key with
  | some m0 =>
    simp only
    cases hk' : GoMap.lookup v.Errors k with
    | some m => rfl
    | none =>
      have : ¬ key = k := by
        intro e; subst e; rw [hk] at hk'; exact Option.noConfusion hk'
      simp [this]
  | none =>
    simp only [GoMap.lookup_set]
    by_cases e : key = k
    · subst e; simp [hk]
    · simp only [e, if_false]
      cases GoMap.lookup v.Errors k <;> rfl

theorem lookup_apply (v : Validator) (c : Call) (k : String) :
    GoMap.lookup (c.apply v).Errors k =
      match GoMap.lookup v.Errors k with
      | some m => some m
      | none =>
        match c.failure with
        | some (key, message) => if key = k then some message else none
        | none => none := by
  cases c with
  | AddError key message =>
    simp only [Call.apply, Call.failure]
    exact Validator.lookup_AddError v key message k
  | Check ok key message =>
    cases ok with
    | true =>
      cases h : GoMap.lookup v.Errors k <;> simp [Call.apply, Call.failure, Validator.Check, h]
    | false =>
      simp only [Call.apply, Call.failure, Validator.Check]
      exact Validator.lookup_AddError v key message k

theorem lookup_foldl_apply (calls : List Call) (v : Validator) (k : String) :
    GoMap.lookup (calls.foldl Call.apply v).Errors k =
      match GoMap.lookup v.Errors k with
      | some m => some m
      | none => firstFailure calls k := by
  induction calls generalizing v with
  | nil =>
    simp only [List.foldl_nil, firstFailure]
    cases GoMap.lookup v.Errors k <;> rfl
  | cons c rest ih =>
    rw [List.foldl_cons, ih, lookup_apply]
    cases GoMap.lookup v.Errors k with
    | some m => rfl
    | none =>
      simp only [firstFailure]
      cases c.failure with
      | none => rfl
      | some p =>
        obtain ⟨key, message⟩ := p
        by_cases e : key = k <;> simp [e]

theorem GoMap.eq_nil_iff_lookup {K V : Type} [DecidableEq K] (m : GoMap K V) :
    m = [] ↔ ∀ k, GoMap.lookup m k = none := by
  constructor
  · rintro rfl k; rfl
  · intro h
    cases m with
    | nil => rfl
    | cons p rest =>
      have := h p.1
      simp [GoMap.lookup] at this

theorem firstFailure_none_iff (calls : List Call) :
    (∀ k, firstFailure calls k = none) ↔ ∀ c ∈ calls, c.failure = none := by
  induction calls with
  | nil => simp [firstFailure]
  | cons c rest ih =>
    cases hc : c.failure with
    | none =>
      simp only [firstFailure, hc, List.mem_cons, forall_eq_or_imp, true_and]
      exact ih
    | some p =>
      obtain ⟨key, message⟩ := p
      constructor
      · intro h
        have := h key
        simp [firstFailure, hc] at this
      · intro h
        have := h c (List.mem_cons_self _ _)
        rw [hc] at this
        exact Option.noConfusion this

/-- C10: on a validator made by `New()`, after any sequence of `AddError` and `Check` calls
the message stored for a key is that of the first failing call for the key, a later failing
call never overwrites a stored message, a `Check` with `ok = true` leaves the validator
unchanged, and `Valid()` is true exactly when no call of the sequence reported a failure. -/
theorem Validator_first_write_wins (calls : List Call) (key : String) :
    GoMap.lookup (runCalls calls).Errors key = firstFailure calls key ∧
    (∀ (c : Call) (m : String), GoMap.lookup (runCalls calls).Errors key = some m →
      GoMap.lookup (runCalls (calls ++ [c])).Errors key = some m) ∧
    (∀ (k message : String), (runCalls calls).Check true k message = runCalls calls) ∧
    ((runCalls calls).Valid = true ↔ ∀ c ∈ calls, c.failure = none) := by
  refine ⟨?_, ?_, ?_, ?_⟩
  · unfold runCalls
    rw [lookup_foldl_apply]
    rfl
  · intro c m h
    unfold runCalls at h ⊢
    rw [List.foldl_append, List.foldl_cons, List.foldl_nil, lookup_apply, h]
  · intro k message
    rfl
  · rw [← firstFailure_none_iff]
    unfold Validator.Valid GoMap.len
    simp only [beq_iff_eq, List.length_eq_zero]
    rw [GoMap.eq_nil_iff_lookup]
    constructor
    · intro h k
      have := h k
      unfold runCalls at this
      rw [lookup_foldl_apply] at this
      exact this
    · intro h k
      unfold runCalls
      rw [lookup_foldl_apply]
      exact h k

/-! ## `openDB` -/

/-- C6: `openDB` returns an error exactly when `sql.Open` fails, or the configured idle time
is not a valid duration, or the ping of the configured pool under the 5-second deadline
reports an error; an error comes with a nil pool; without error the pool returned is the
one on which the three setters were called with the configured values, and those calls
precede the ping; with an invalid idle time no ping is made. -/
theorem openDB_error_iff (env : Env) (cfg : Config) :
    ((openDB env cfg).1.2 ≠ none ↔
      env.sqlOpen "postgres" cfg.db.dsn ≠ none ∨
      (∃ e, env.parseDuration cfg.db.maxIdleTime = .error e) ∨
      (∃ d, env.parseDuration cfg.db.maxIdleTime = .ok d ∧
        env.pingContext (configuredPool cfg d) 5 ≠ none)) ∧
    ((openDB env cfg).1.2 ≠ none → (openDB env cfg).1.1 = none) ∧
    ((openDB env cfg).1.2 = none →
      ∃ d, env.parseDuration cfg.db.maxIdleTime = .ok d ∧
        (openDB env cfg).1.1 = some (configuredPool cfg d) ∧
        (openDB env cfg).2 =
          [.Open "postgres" cfg.db.dsn, .WithTimeout 5, .SetMaxOpenConns cfg.db.maxOpenConns,
            .SetMaxIdleConns cfg.db.maxIdleConns, .ParseDuration cfg.db.maxIdleTime,
            .SetConnMaxIdleTime d, .PingContext 5, .Cancel]) ∧
    ((∃ e, env.parseDuration cfg.db.maxIdleTime = .error e) →
      ∀ n, DBOp.PingContext n ∉ (openDB env cfg).2) := by
  have hpool : ∀ d, (((freshPool cfg.db.dsn).SetMaxOpenConns cfg.db.maxOpenConns).SetMaxIdleConns
      cfg.db.maxIdleConns).SetConnMaxIdleTime d = configuredPool cfg d := fun d => rfl
  unfold openDB
  cases hopen : env.sqlOpen "postgres" cfg.db.dsn with
  | some e0 =>
    simp
  | none =>
    cases hparse : env.parseDuration cfg.db.maxIdleTime with
    | error e1 => simp
    | ok d =>
      simp only [hpool]
      cases hping : env.pingContext (configuredPool cfg d) 5 with
      | some e2 => simp [hping]
      | none => simp [hping]

/-! ## The invariant of the process -/

theorem filter_ofMain_store (ops : List DBOp) :
    (ops.map Event.Store).filter Event.ofMain = ops.map Event.Store := by
  induction ops with
  | nil => rfl
  | cons o rest ih => simp [List.filter_cons, Event.ofMain, ih]

theorem filter_ofSig_store (ops : List DBOp) :
    (ops.map Event.Store).filter Event.ofSig = [] := by
  induction ops with
  | nil => rfl
  | cons o rest ih => simp [List.filter_cons, Event.ofSig, ih]

theorem Inv_init (cl : CommandLine) (env : Env) : Inv cl env init :=
  ⟨rfl, rfl, fun _ => rfl, rfl⟩

theorem Inv_main (cl : CommandLine) (env : Env) (st st' : State)
    (hinv : Inv cl env st) (h : main cl env st = some st') : Inv cl env st' := by
  obtain ⟨m, g, log⟩ := st
  obtain ⟨hm, hg, hu, hw⟩ := hinv
  simp only at hm hg hu hw
  cases m with
  | start =>
    simp only [main] at h
    simp only [mainTrace] at hm
    have hg0 : g = .notStarted := hu rfl
    subst hg0
    simp only [sigTrace] at hg
    split at h
    · cases h
      constructor
      · simp [List.filter_append, mainTrace, Event.ofMain, hm]
      · simp [List.filter_append, hg, Event.ofSig, sigTrace]
      · simp [MainPc.beforeGo]
      · rfl
    · rcases hdb : openDB env cl.cfg with ⟨⟨db, err⟩, ops⟩
      rw [hdb] at h
      cases err with
      | some e =>
        simp only [Option.some.injEq] at h
        subst h
        constructor
        · simp [List.filter_append, mainTrace, hdb, filter_ofMain_store, PrintFatal,
            Event.ofMain, hm]
        · simp [List.filter_append, hg, filter_ofSig_store, PrintFatal, Event.ofSig, sigTrace]
        · simp [MainPc.beforeGo]
        · rfl
      | none =>
        simp only [Option.some.injEq] at h
        subst h
        constructor
        · simp [List.filter_append, mainTrace, hdb, filter_ofMain_store, Event.ofMain, hm]
        · simp [List.filter_append, hg, filter_ofSig_store, sigTrace, Event.ofSig]
        · simp
        · rfl
  | serveEntry =>
    simp only [main, serve, Option.some.injEq] at h
    have hg0 : g = .notStarted := hu rfl
    subst hg0 h
    simp only [sigTrace] at hg
    constructor
    · simp [List.filter_append, mainTrace, startupEvents, Event.ofMain, hm]
    · simp [List.filter_append, hg, sigTrace, Event.ofSig]
    · simp [MainPc.beforeGo]
    · rfl
  | inListenAndServe => simp [main, serve] at h
  | recv => simp [main, serve] at h
  | exited x => simp [main] at h
  | afterListen e =>
    simp only [main, serve] at h
    split at h <;> cases h
    · constructor
      · cases e <;> simp_all [List.filter_append, mainTrace, Event.ofMain, isErrServerClosed]
      · simp [List.filter_append, hg, Event.ofSig]
      · simp [MainPc.beforeGo]
      · rfl
    · constructor
      · simp_all [List.filter_append, mainTrace, Event.ofMain, serveExitEvents]
      · simp [List.filter_append, hg, Event.ofSig]
      · simp [MainPc.beforeGo]
      · simp_all [MainPc.wf, ServeExit.wf]
  | afterRecv v =>
    cases v <;> simp only [main, serve, Option.some.injEq] at h <;> subst h <;> constructor <;>
      simp [List.filter_append, mainTrace, Event.ofMain, Event.ofSig, serveExitEvents, hm, hg,
        MainPc.wf, ServeExit.wf, MainPc.beforeGo]
  | afterServe x =>
    cases x <;> simp only [main, ServeExit.value, Option.some.injEq] at h <;> subst h <;>
      constructor <;>
      simp_all [List.filter_append, mainTrace, Event.ofMain, Event.ofSig, serveExitEvents,
        PrintFatal, ServeExit.value, MainPc.wf, ServeExit.wf, MainPc.beforeGo]
  | _ =>
    simp only [main, serve, Option.some.injEq] at h
    subst h
    constructor <;>
      simp_all [List.filter_append, mainTrace, Event.ofMain, Event.ofSig, serveExitEvents,
        ServeExit.value, MainPc.wf, ServeExit.wf, MainPc.beforeGo]

theorem Inv_stepSig (cl : CommandLine) (env : Env) (st st' : State)
    (hinv : Inv cl env st) (hal : st.main.beforeGo = false) (h : stepSig st = some st') :
    Inv cl env st' := by
  obtain ⟨m, g, log⟩ := st
  obtain ⟨hm, hg, hu, hw⟩ := hinv
  simp only at hm hg hu hal hw
  unfold stepSig at h
  cases g with
  | afterShutdown s r =>
    cases r <;> simp only [Option.some.injEq] at h <;> subst h <;> constructor <;>
      simp [List.filter_append, Event.ofMain, Event.ofSig, sigTrace, shutdownEvents, hm, hg, hal, hw]
  | logShutting s =>
    simp only [Option.some.injEq] at h
    subst h
    constructor <;>
      simp [List.filter_append, Event.ofMain, Event.ofSig, sigTrace, shutdownEvents, hm, hg, hal, hw]
  | callShutdown s =>
    simp only [Option.some.injEq] at h
    subst h
    constructor <;>
      simp [List.filter_append, Event.ofMain, Event.ofSig, sigTrace, shutdownEvents, hm, hg, hal, hw]
  | logCompleting s e =>
    simp only [Option.some.injEq] at h
    subst h
    constructor <;>
      simp [List.filter_append, Event.ofMain, Event.ofSig, sigTrace, shutdownEvents, hm, hg, hal, hw]
  | callWait s r =>
    simp only [Option.some.injEq] at h
    subst h
    constructor <;>
      simp [List.filter_append, Event.ofMain, Event.ofSig, sigTrace, shutdownEvents, hm, hg, hal, hw]
  | afterWait s r =>
    simp only [Option.some.injEq] at h
    subst h
    constructor <;>
      simp [List.filter_append, Event.ofMain, Event.ofSig, sigTrace, shutdownEvents, hm, hg, hal, hw]
  | _ => simp at h

theorem Inv_step (cl : CommandLine) (env : Env) (st st' : State) (a : Action)
    (hinv : Inv cl env st) (h : step cl env st a = some st') : Inv cl env st' := by
  unfold step at h
  split at h
  · cases a with
    | main => exact Inv_main cl env st st' hinv h
    | sig =>
      refine Inv_stepSig cl env st st' hinv ?_ h
      cases hb : st.main.beforeGo with
      | false => rfl
      | true =>
        have := hinv.unborn hb
        simp [stepSig, this] at h
    | listenReturns e =>
      obtain ⟨m, g, log⟩ := st
      obtain ⟨hm, hg, hu, hw⟩ := hinv
      simp only at hm hg hu hw h
      cases m <;> try (simp at h; done)
      simp only [Option.some.injEq] at h
      subst h
      constructor <;>
        simp [List.filter_append, Event.ofMain, Event.ofSig, mainTrace, hm, hg, MainPc.wf,
          MainPc.beforeGo]
    | signal s =>
      obtain ⟨m, g, log⟩ := st
      obtain ⟨hm, hg, hu, hw⟩ := hinv
      simp only at hm hg hu hw h
      cases g <;> try (simp at h; done)
      simp only [Option.some.injEq] at h
      subst h
      constructor
      · simp [List.filter_append, Event.ofMain, hm]
      · simp [List.filter_append, Event.ofSig, sigTrace, hg]
      · intro hs; have := hu hs; simp at this
      · exact hw
    | shutdownReturns r =>
      obtain ⟨m, g, log⟩ := st
      obtain ⟨hm, hg, hu, hw⟩ := hinv
      simp only at hm hg hu hw h
      cases g <;> try (simp at h; done)
      simp only [Option.some.injEq] at h
      subst h
      constructor
      · simp [List.filter_append, Event.ofMain, hm]
      · simp [List.filter_append, Event.ofSig, sigTrace, hg]
      · intro hs; have := hu hs; simp at this
      · exact hw
    | waitReturns =>
      obtain ⟨m, g, log⟩ := st
      obtain ⟨hm, hg, hu, hw⟩ := hinv
      simp only at hm hg hu hw h
      cases g <;> try (simp at h; done)
      simp only [Option.some.injEq] at h
      subst h
      constructor
      · simp [List.filter_append, Event.ofMain, hm]
      · simp [List.filter_append, Event.ofSig, sigTrace, hg]
      · intro hs; have := hu hs; simp at this
      · exact hw
    | handoff =>
      obtain ⟨m, g, log⟩ := st
      obtain ⟨hm, hg, hu, hw⟩ := hinv
      simp only at hm hg hu hw h
      cases m <;> cases g <;> (try (simp at h; done)) <;>
        simp only [Option.some.injEq] at h <;> subst h <;> constructor <;>
        simp [List.filter_append, Event.ofMain, Event.ofSig, mainTrace, sigTrace,
          shutdownEvents, hm, hg, MainPc.wf, MainPc.beforeGo]
  · simp at h

theorem Inv_run (cl : CommandLine) (env : Env) (schedule : List Action) (st st' : State)
    (hinv : Inv cl env st) (h : run cl env st schedule = some st') : Inv cl env st' := by
  induction schedule generalizing st with
  | nil =>
    simp only [run, Option.some.injEq] at h
    subst h
    exact hinv
  | cons a rest ih =>
    simp only [run] at h
    cases hs : step cl env st a with
    | none => rw [hs] at h; simp at h
    | some s1 =>
      rw [hs] at h
      exact ih s1 (Inv_step cl env st s1 a hinv hs) h

theorem Inv_of_reachable (cl : CommandLine) (env : Env) (st : State)
    (h : Reachable cl env st) : Inv cl env st := by
  obtain ⟨schedule, hrun⟩ := h
  exact Inv_run cl env schedule init st (Inv_init cl env) hrun

theorem run_append (cl : CommandLine) (env : Env) (st : State) (s1 s2 : List Action) :
    run cl env st (s1 ++ s2) = (run cl env st s1).bind (fun st' => run cl env st' s2) := by
  induction s1 generalizing st with
  | nil => rfl
  | cons a rest ih =>
    simp only [List.cons_append, run]
    cases step cl env st a with
    | none => rfl
    | some st1 => simp [ih]

theorem Reachable.run {cl : CommandLine} {env : Env} {st st' : State} {schedule : List Action}
    (h : Reachable cl env st) (hrun : Greenlight.run cl env st schedule = some st') :
    Reachable cl env st' := by
  obtain ⟨s0, h0⟩ := h
  exact ⟨s0 ++ schedule, by rw [run_append, h0]; exact hrun⟩

theorem settleStep_step (cl : CommandLine) (env : Env) (st st' : State) (a : Action)
    (h : settleStep cl env st = some (a, st')) :
    step cl env st a = some st' ∧ a.internal = true := by
  unfold settleStep at h
  split at h
  · simp only [Option.some.injEq, Prod.mk.injEq] at h
    obtain ⟨rfl, rfl⟩ := h
    exact ⟨by assumption, rfl⟩
  · split at h
    · simp only [Option.some.injEq, Prod.mk.injEq] at h
      obtain ⟨rfl, rfl⟩ := h
      exact ⟨by assumption, rfl⟩
    · split at h
      · simp only [Option.some.injEq, Prod.mk.injEq] at h
        obtain ⟨rfl, rfl⟩ := h
        exact ⟨by assumption, rfl⟩
      · split at h
        · simp only [Option.some.injEq, Prod.mk.injEq] at h
          obtain ⟨rfl, rfl⟩ := h
          exact ⟨by assumption, rfl⟩
        · exact absurd h (by simp)

theorem settle_run (cl : CommandLine) (env : Env) (n : Nat) (st : State) :
    ∃ schedule, (∀ a ∈ schedule, Action.internal a = true) ∧
      run cl env st schedule = some (settle cl env n st) := by
  induction n generalizing st with
  | zero => exact ⟨[], by simp, rfl⟩
  | succ n ih =>
    unfold settle
    cases hs : settleStep cl env st with
    | none => exact ⟨[], by simp, rfl⟩
    | some p =>
      obtain ⟨a, st1⟩ := p
      obtain ⟨hstep, hint⟩ := settleStep_step cl env st st1 a hs
      obtain ⟨sch, hall, hrun⟩ := ih st1
      refine ⟨a :: sch, ?_, ?_⟩
      · intro b hb
        rcases List.mem_cons.mp hb with rfl | hb
        · exact hint
        · exact hall b hb
      · simp only [run, hstep, Option.some_bind]
        exact hrun

/-! ## Order of events -/

theorem precedesFrom_spec (a b : Event → Bool) (seen : Bool) (l : List Event) :
    precedesFrom a b seen l = true ↔
      ∀ pre e post, l = pre ++ e :: post → b e = true →
        seen = true ∨ ∃ x ∈ pre, a x = true := by
  induction l generalizing seen with
  | nil =>
    simp only [precedesFrom, true_iff]
    intro pre e post h
    cases pre <;> simp at h
  | cons c rest ih =>
    simp only [precedesFrom, Bool.and_eq_true, Bool.or_eq_true, Bool.not_eq_true', ih]
    constructor
    · rintro ⟨h1, h2⟩ pre e post hl hb
      cases pre with
      | nil =>
        simp only [List.nil_append, List.cons.injEq] at hl
        obtain ⟨rfl, -⟩ := hl
        rcases h1 with h1 | h1
        · rw [h1] at hb; exact absurd hb (by simp)
        · exact Or.inl h1
      | cons p pre' =>
        simp only [List.cons_append, List.cons.injEq] at hl
        obtain ⟨rfl, hl⟩ := hl
        rcases h2 pre' e post hl hb with (h | h) | ⟨x, hx, hax⟩
        · exact Or.inl h
        · exact Or.inr ⟨c, List.mem_cons_self _ _, h⟩
        · exact Or.inr ⟨x, List.mem_cons_of_mem _ hx, hax⟩
    · intro h
      constructor
      · cases hb : b c with
        | false => exact Or.inl rfl
        | true =>
          rcases h [] c rest rfl hb with h | ⟨x, hx, -⟩
          · exact Or.inr h
          · simp at hx
      · intro pre e post hl hb
        rcases h (c :: pre) e post (by simp [hl]) hb with h | ⟨x, hx, hax⟩
        · exact Or.inl (Or.inl h)
        · rcases List.mem_cons.mp hx with rfl | hx
          · exact Or.inl (Or.inr hax)
          · exact Or.inr ⟨x, hx, hax⟩

theorem Precedes_iff (a b : Event → Bool) (l : List Event) :
    Precedes a b l ↔ precedesFrom a b false l = true := by
  rw [precedesFrom_spec]
  unfold Precedes
  simp

theorem precedesFrom_filter (a b p : Event → Bool) (seen : Bool) (l : List Event)
    (ha : ∀ e, a e = true → p e = true) (hb : ∀ e, b e = true → p e = true) :
    precedesFrom a b seen (l.filter p) = precedesFrom a b seen l := by
  induction l generalizing seen with
  | nil => rfl
  | cons c rest ih =>
    cases hp : p c with
    | true => simp [List.filter_cons, hp, precedesFrom, ih]
    | false =>
      have hac : a c = false := by
        cases h : a c with
        | false => rfl
        | true => rw [ha c h] at hp; exact absurd hp (by simp)
      have hbc : b c = false := by
        cases h : b c with
        | false => rfl
        | true => rw [hb c h] at hp; exact absurd hp (by simp)
      simp [List.filter_cons, hp, precedesFrom, ih, hac, hbc]

theorem precedesFrom_skip (a b : Event → Bool) (seen : Bool) (l l' : List Event)
    (h : ∀ e ∈ l, a e = false ∧ b e = false) :
    precedesFrom a b seen (l ++ l') = precedesFrom a b seen l' := by
  induction l with
  | nil => rfl
  | cons c rest ih =>
    have hc := h c (List.mem_cons_self _ _)
    simp only [List.cons_append, precedesFrom, hc.1, hc.2, Bool.not_false, Bool.true_or,
      Bool.or_false, Bool.true_and]
    exact ih (fun e he => h e (List.mem_cons_of_mem _ he))

theorem precedesFrom_store (a b : Event → Bool) (seen : Bool) (ops : List DBOp)
    (l' : List Event) (ha : ∀ op, a (.Store op) = false) (hb : ∀ op, b (.Store op) = false) :
    precedesFrom a b seen (ops.map Event.Store ++ l') = precedesFrom a b seen l' := by
  apply precedesFrom_skip
  intro e he
  obtain ⟨op, -, rfl⟩ := List.mem_map.mp he
  exact ⟨ha op, hb op⟩

theorem precedesFrom_store_only (a b : Event → Bool) (seen : Bool) (ops : List DBOp)
    (ha : ∀ op, a (.Store op) = false) (hb : ∀ op, b (.Store op) = false) :
    precedesFrom a b seen (ops.map Event.Store) = true := by
  have := precedesFrom_store a b seen ops [] ha hb
  rw [List.append_nil] at this
  rw [this]
  rfl

theorem Precedes.trans {a b c : Event → Bool} {l : List Event}
    (hab : Precedes a b l) (hbc : Precedes b c l) : Precedes a c l := by
  intro pre e post hl hc
  obtain ⟨x, hx, hbx⟩ := hbc pre e post hl hc
  obtain ⟨pre', post', rfl⟩ := List.append_of_mem hx
  obtain ⟨y, hy, hay⟩ := hab pre' x (post' ++ e :: post) (by simp [hl]) hbx
  exact ⟨y, List.mem_append_left _ hy, hay⟩

/-- An order among events of the main goroutine holds in the log when it holds in the
trace fixed by the program counter. -/
theorem Precedes_of_mainTrace {cl : CommandLine} {env : Env} {st : State}
    (hinv : Inv cl env st) (a b : Event → Bool)
    (ha : ∀ e, a e = true → e.ofMain = true) (hb : ∀ e, b e = true → e.ofMain = true)
    (h : precedesFrom a b false (mainTrace cl env st.main) = true) :
    Precedes a b st.log := by
  rw [Precedes_iff, ← precedesFrom_filter a b Event.ofMain false st.log ha hb, hinv.main]
  exact h

/-- An order among events of the signal goroutine holds in the log when it holds in the
trace fixed by the program counter. -/
theorem Precedes_of_sigTrace {cl : CommandLine} {env : Env} {st : State}
    (hinv : Inv cl env st) (a b : Event → Bool)
    (ha : ∀ e, a e = true → e.ofSig = true) (hb : ∀ e, b e = true → e.ofSig = true)
    (h : precedesFrom a b false (sigTrace st.sig) = true) :
    Precedes a b st.log := by
  rw [Precedes_iff, ← precedesFrom_filter a b Event.ofSig false st.log ha hb, hinv.sig]
  exact h

theorem mem_log_iff_mainTrace {cl : CommandLine} {env : Env} {st : State}
    (hinv : Inv cl env st) (e : Event) (he : e.ofMain = true) :
    e ∈ st.log ↔ e ∈ mainTrace cl env st.main := by
  rw [← hinv.main, List.mem_filter]
  simp [he]

theorem mem_log_iff_sigTrace {cl : CommandLine} {env : Env} {st : State}
    (hinv : Inv cl env st) (e : Event) (he : e.ofSig = true) :
    e ∈ st.log ↔ e ∈ sigTrace st.sig := by
  rw [← hinv.sig, List.mem_filter]
  simp [he]

/-- The two goroutines agree on what went through the channel. -/
theorem chanTransfer_agree {cl : CommandLine} {env : Env} {st : State}
    (hinv : Inv cl env st) (v : Option GoError) :
    Event.ChanTransfer v ∈ mainTrace cl env st.main ↔ Event.ChanTransfer v ∈ sigTrace st.sig := by
  rw [← mem_log_iff_mainTrace hinv (.ChanTransfer v) rfl,
    ← mem_log_iff_sigTrace hinv (.ChanTransfer v) rfl]

theorem Precedes.mono_left {a a' b : Event → Bool} {l : List Event}
    (h : Precedes a b l) (ha : ∀ e, a e = true → a' e = true) : Precedes a' b l := by
  intro pre e post hl hb
  obtain ⟨x, hx, hax⟩ := h pre e post hl hb
  exact ⟨x, hx, ha x hax⟩

theorem filter_filter_of_imp (p q : Event → Bool) (l : List Event)
    (h : ∀ e, p e = true → q e = true) : (l.filter q).filter p = l.filter p := by
  induction l with
  | nil => rfl
  | cons c rest ih =>
    cases hq : q c with
    | true => simp [List.filter_cons, hq, ih]
    | false =>
      have hp : p c = false := by
        cases hpc : p c with
        | false => rfl
        | true => rw [h c hpc] at hq; exact absurd hq (by simp)
      simp [List.filter_cons, hq, hp, ih]

theorem countP_filter_of_imp (p q : Event → Bool) (l : List Event)
    (h : ∀ e, p e = true → q e = true) : (l.filter q).countP p = l.countP p := by
  induction l with
  | nil => rfl
  | cons c rest ih =>
    cases hq : q c with
    | true => simp [List.filter_cons, hq, List.countP_cons, ih]
    | false =>
      have hp : p c = false := by
        cases hpc : p c with
        | false => rfl
        | true => rw [h c hpc] at hq; exact absurd hq (by simp)
      simp [List.filter_cons, hq, hp, List.countP_cons, ih]

theorem countP_store (p : Event → Bool) (ops : List DBOp) (hp : ∀ op, p (.Store op) = false) :
    (ops.map Event.Store).countP p = 0 := by
  induction ops with
  | nil => rfl
  | cons o rest ih => simp [List.countP_cons, hp, ih]

/-! ### Progress of a shutdown -/

/-- Once a value has passed through the channel, the main goroutine ends the process on its
own, at the exit fixed by that value. -/
theorem settle_after_transfer (cl : CommandLine) (env : Env) (m : MainPc) (g : SigPc)
    (log : List Event) (v : Option GoError) (hw : m.wf = true)
    (hclosed : Event.ListenAndServeReturned .ErrServerClosed ∈ mainTrace cl env m)
    (hv : Event.ChanTransfer v ∈ mainTrace cl env m) :
    (settle cl env 12 { main := m, sig := g, log := log }).main =
      .exited (exitAfterShutdown v) := by
  rcases m with _ | _ | _ | _ | _ | e | _ | v0 | x | x | _ | x
  case afterRecv =>
    have : v = v0 := by simpa [mainTrace, startupEvents] using hv
    subst this
    cases v <;> rfl
  case serveReturn =>
    rcases x with e0 | e0 | _
    · simp [mainTrace, startupEvents, serveExitEvents] at hv
    · have : v = some e0 := by simpa [mainTrace, startupEvents, serveExitEvents] using hv
      subst this
      rfl
    · have : v = none := by simpa [mainTrace, startupEvents, serveExitEvents] using hv
      subst this
      rfl
  case afterServe =>
    rcases x with e0 | e0 | _
    · simp [mainTrace, startupEvents, serveExitEvents] at hv
    · have : v = some e0 := by simpa [mainTrace, startupEvents, serveExitEvents] using hv
      subst this
      rfl
    · have : v = none := by simpa [mainTrace, startupEvents, serveExitEvents] using hv
      subst this
      rfl
  case mainReturned =>
    have : v = none := by simpa [mainTrace, startupEvents, serveExitEvents] using hv
    subst this
    rfl
  case exited =>
    rcases x with _ | _ | y | _
    · simp [mainTrace] at hv
    · simp only [mainTrace] at hv
      split at hv <;> simp [PrintFatal] at hv
    · rcases y with e0 | e0 | _
      · simp [mainTrace, startupEvents, serveExitEvents, ServeExit.value, PrintFatal] at hv
      · have : v = some e0 := by
          simpa [mainTrace, startupEvents, serveExitEvents, ServeExit.value, PrintFatal] using hv
        subst this
        rfl
      · simp [MainPc.wf, ServeExit.value] at hw
    · have : v = none := by simpa [mainTrace, startupEvents, serveExitEvents] using hv
      subst this
      rfl
  all_goals simp [mainTrace, startupEvents] at hv

/-- With `http.ErrServerClosed` returned and nothing received, `serve` is at its test of the
error or blocked in its receive. -/
theorem main_before_transfer (cl : CommandLine) (env : Env) (m : MainPc) (hw : m.wf = true)
    (hclosed : Event.ListenAndServeReturned .ErrServerClosed ∈ mainTrace cl env m)
    (hm : ∀ v, Event.ChanTransfer v ∉ mainTrace cl env m) :
    m = .afterListen .ErrServerClosed ∨ m = .recv := by
  rcases m with _ | _ | _ | _ | _ | e0 | _ | v0 | x | x | _ | x
  case afterListen =>
    left
    simp [mainTrace, startupEvents] at hclosed
    rw [hclosed]
  case recv => exact Or.inr rfl
  case afterRecv => exact absurd (by simp [mainTrace]) (hm v0)
  case serveReturn =>
    rcases x with e1 | e1 | _
    · simp [mainTrace, startupEvents, serveExitEvents] at hclosed
      subst hclosed
      simp [MainPc.wf, ServeExit.wf, isErrServerClosed] at hw
    · exact absurd (by simp [mainTrace, serveExitEvents]) (hm (some e1))
    · exact absurd (by simp [mainTrace, serveExitEvents]) (hm none)
  case afterServe =>
    rcases x with e1 | e1 | _
    · simp [mainTrace, startupEvents, serveExitEvents] at hclosed
      subst hclosed
      simp [MainPc.wf, ServeExit.wf, isErrServerClosed] at hw
    · exact absurd (by simp [mainTrace, serveExitEvents]) (hm (some e1))
    · exact absurd (by simp [mainTrace, serveExitEvents]) (hm none)
  case mainReturned => exact absurd (by simp [mainTrace, serveExitEvents]) (hm none)
  case exited =>
    rcases x with _ | _ | y | _
    · simp [mainTrace] at hclosed
    · simp only [mainTrace] at hclosed
      split at hclosed <;> simp [PrintFatal] at hclosed
    · rcases y with e1 | e1 | _
      · simp [mainTrace, startupEvents, serveExitEvents, ServeExit.value, PrintFatal]
          at hclosed
        subst hclosed
        simp [MainPc.wf, ServeExit.wf, isErrServerClosed] at hw
      · exact absurd (by simp [mainTrace, serveExitEvents]) (hm (some e1))
      · exact absurd (by simp [mainTrace, serveExitEvents]) (hm none)
    · exact absurd (by simp [mainTrace, serveExitEvents]) (hm none)
  all_goals simp [mainTrace, startupEvents] at hclosed

/-- While no value has passed through the channel, `serve` reaches its receive, the signal
goroutine reaches a send, the value passes and the process ends at the exit fixed by the
result of `srv.Shutdown`. -/
theorem settle_before_transfer (cl : CommandLine) (env : Env) (m : MainPc) (g : SigPc)
    (log : List Event) (r : Option GoError)
    (hmain : m = .afterListen .ErrServerClosed ∨ m = .recv)
    (hg : ∀ v, Event.ChanTransfer v ∉ sigTrace g)
    (hsd : Event.ShutdownReturned r ∈ sigTrace g) :
    (settle cl env 12 { main := m, sig := g, log := log }).main =
      .exited (exitAfterShutdown r) := by
  have hg1 := hg none
  have hg2 := fun e => hg (some e)
  clear hg
  rcases g with _ | _ | s | s | s | ⟨s, err⟩ | ⟨s, e⟩ | ⟨s, e⟩ | ⟨s, err⟩ | ⟨s, err⟩ |
    ⟨s, err⟩ | ⟨s, err⟩ | ⟨s, err⟩
  case notStarted => simp [sigTrace] at hsd
  case waitSignal => simp [sigTrace] at hsd
  case logShutting => simp [sigTrace] at hsd
  case callShutdown => simp [sigTrace] at hsd
  case inShutdown => simp [sigTrace] at hsd
  case logCompleting => simp [sigTrace, shutdownEvents] at hg2
  case done => simp [sigTrace, shutdownEvents] at hg1
  case afterShutdown =>
    have hr : r = err := by simpa [sigTrace, shutdownEvents] using hsd
    subst hr
    rcases hmain with rfl | rfl <;> cases r <;> rfl
  case sendErr =>
    have hr : r = some e := by simpa [sigTrace, shutdownEvents] using hsd
    subst hr
    rcases hmain with rfl | rfl <;> rfl
  all_goals
    cases err with
    | some e1 => simp [sigTrace, shutdownEvents] at hg2
    | none =>
      have hr : r = none := by simpa [sigTrace, shutdownEvents] using hsd
      subst hr
      rcases hmain with rfl | rfl <;> rfl

/-- Once `ListenAndServe` has returned `http.ErrServerClosed` and `srv.Shutdown` has returned
`r`, twelve moves that take nothing from outside but the return of `wg.Wait` end the process
at the exit fixed by `r`. -/
theorem settle_after_shutdown (cl : CommandLine) (env : Env) (m : MainPc) (g : SigPc)
    (log : List Event) (r : Option GoError)
    (hagree : ∀ v, Event.ChanTransfer v ∈ mainTrace cl env m ↔ Event.ChanTransfer v ∈ sigTrace g)
    (hw : m.wf = true)
    (hclosed : Event.ListenAndServeReturned .ErrServerClosed ∈ mainTrace cl env m)
    (hsd : Event.ShutdownReturned r ∈ sigTrace g)
    (houtcome : ∀ v, Event.ChanTransfer v ∈ mainTrace cl env m → v = r) :
    (settle cl env 12 { main := m, sig := g, log := log }).main =
      .exited (exitAfterShutdown r) := by
  by_cases hex : ∃ v, Event.ChanTransfer v ∈ mainTrace cl env m
  · obtain ⟨v, hv⟩ := hex
    have := houtcome v hv
    subst this
    exact settle_after_transfer cl env m g log v hw hclosed hv
  · have hm : ∀ v, Event.ChanTransfer v ∉ mainTrace cl env m := fun v hv => hex ⟨v, hv⟩
    exact settle_before_transfer cl env m g log r (main_before_transfer cl env m hw hclosed hm)
      (fun v hv => hm v ((hagree v).mpr hv)) hsd

/-! ## The claims about `main` and `serve` -/

theorem ofMain_of_beq (x : Event) (hx : x.ofMain = true) :
    ∀ e, (e == x) = true → e.ofMain = true := by
  intro e h
  rw [eq_of_beq h]
  exact hx

theorem ofSig_of_beq (x : Event) (hx : x.ofSig = true) :
    ∀ e, (e == x) = true → e.ofSig = true := by
  intro e h
  rw [eq_of_beq h]
  exact hx

theorem waitReturned_before_transfer_nil {cl : CommandLine} {env : Env} {st : State}
    (hinv : Inv cl env st) :
    Precedes (fun e => e == .WaitReturned) (fun e => e == .ChanTransfer none) st.log := by
  apply Precedes_of_sigTrace hinv _ _ (ofSig_of_beq .WaitReturned rfl)
    (ofSig_of_beq (.ChanTransfer none) rfl)
  cases st.sig <;> try rfl
  all_goals
    rename_i s err
    cases err <;> rfl

theorem transfer_nil_before_serveReturned_nil {cl : CommandLine} {env : Env} {st : State}
    (hinv : Inv cl env st) :
    Precedes (fun e => e == .ChanTransfer none) (fun e => e == .ServeReturned none) st.log := by
  apply Precedes_of_mainTrace hinv _ _ (ofMain_of_beq (.ChanTransfer none) rfl)
    (ofMain_of_beq (.ServeReturned none) rfl)
  cases st.main with
  | start => rfl
  | serveReturn x =>
    cases x <;>
    simp [mainTrace, startupEvents, precedesFrom_store, precedesFrom, serveExitEvents]
  | afterServe x =>
    cases x <;>
    simp [mainTrace, startupEvents, precedesFrom_store, precedesFrom, serveExitEvents, ServeExit.value]
  | exited x =>
    cases x with
    | openDBFailed =>
      simp only [mainTrace]
      split <;> simp [precedesFrom_store, precedesFrom_store_only, precedesFrom, PrintFatal]
    | serveFailed y =>
      cases y <;>
      simp [mainTrace, startupEvents, precedesFrom_store, precedesFrom, serveExitEvents,
        ServeExit.value, PrintFatal]
    | _ => simp [mainTrace, startupEvents, precedesFrom_store, precedesFrom, serveExitEvents]
  | _ => simp [mainTrace, startupEvents, precedesFrom_store, precedesFrom, serveExitEvents]

theorem serveReturned_nil_before_close {cl : CommandLine} {env : Env} {st : State}
    (hinv : Inv cl env st) :
    Precedes (fun e => e == .ServeReturned none) (fun e => e == .DBClose) st.log := by
  apply Precedes_of_mainTrace hinv _ _ (ofMain_of_beq (.ServeReturned none) rfl)
    (ofMain_of_beq .DBClose rfl)
  cases st.main with
  | start => rfl
  | serveReturn x =>
    cases x <;>
    simp [mainTrace, startupEvents, precedesFrom_store, precedesFrom, serveExitEvents]
  | afterServe x =>
    cases x <;>
    simp [mainTrace, startupEvents, precedesFrom_store, precedesFrom, serveExitEvents,
      ServeExit.value]
  | exited x =>
    cases x with
    | openDBFailed =>
      simp only [mainTrace]
      split <;> simp [precedesFrom_store, precedesFrom_store_only, precedesFrom, PrintFatal]
    | serveFailed y =>
      cases y <;>
      simp [mainTrace, startupEvents, precedesFrom_store, precedesFrom, serveExitEvents,
        ServeExit.value, PrintFatal]
    | _ => simp [mainTrace, startupEvents, precedesFrom_store, precedesFrom, serveExitEvents]
  | _ => simp [mainTrace, startupEvents, precedesFrom_store, precedesFrom, serveExitEvents]

/-- C3: in every execution of `main` the pool is closed only after `serve` has returned,
`serve` returns nil only after `app.wg.Wait` has returned in the signal goroutine, and so the
pool is never closed before the background-work drain has returned. -/
theorem pool_closed_only_after_drain (cl : CommandLine) (env : Env) (st : State)
    (h : Reachable cl env st) :
    Precedes Event.isServeReturned (fun e => e == .DBClose) st.log ∧
    Precedes (fun e => e == .WaitReturned) (fun e => e == .ServeReturned none) st.log ∧
    Precedes (fun e => e == .WaitReturned) (fun e => e == .DBClose) st.log := by
  have hinv := Inv_of_reachable cl env st h
  have h1 := serveReturned_nil_before_close hinv
  have h2 := (waitReturned_before_transfer_nil hinv).trans
    (transfer_nil_before_serveReturned_nil hinv)
  refine ⟨h1.mono_left ?_, h2, h2.trans h1⟩
  intro e he
  rw [eq_of_beq he]
  rfl

theorem sigStep_ofSig : ∀ e, Event.sigStep e = true → Event.ofSig e = true := by
  intro e h
  cases e <;> first | rfl | exact absurd h (by simp [Event.sigStep])

theorem isShutdownReturned_ofSig :
    ∀ e, Event.isShutdownReturned e = true → Event.ofSig e = true := by
  intro e h
  cases e <;> first | rfl | exact absurd h (by simp [Event.isShutdownReturned])

theorem isLogShuttingDown_ofSig :
    ∀ e, Event.isLogShuttingDown e = true → Event.ofSig e = true := by
  intro e h
  cases e <;> first | rfl | exact absurd h (by simp [Event.isLogShuttingDown])

theorem isShutdownCalled_ofSig :
    ∀ e, Event.isShutdownCalled e = true → Event.ofSig e = true := by
  intro e h
  cases e <;> first | rfl | exact absurd h (by simp [Event.isShutdownCalled])

/-- C8: in every execution the steps of the signal goroutine are an initial part of the fixed
sequence: signal received, "shutting down server" logged with that signal, `srv.Shutdown`
called with a 20-second deadline, `srv.Shutdown` returned, "completing background tasks"
logged, `app.wg.Wait` called, `app.wg.Wait` returned. In particular the log entry and the
call of `app.wg.Wait` come only after `srv.Shutdown` has returned, with or without error. -/
theorem shutdown_steps_in_fixed_order (cl : CommandLine) (env : Env) (st : State)
    (h : Reachable cl env st) :
    (∃ s err rest, st.log.filter Event.sigStep ++ rest = shutdownOrder s err) ∧
    Precedes Event.isShutdownReturned (fun e => e == .LogCompleting) st.log ∧
    Precedes Event.isShutdownReturned (fun e => e == .WaitCalled) st.log ∧
    Precedes (fun e => e == .ShutdownCalled 20) Event.isShutdownReturned st.log ∧
    Precedes Event.isLogShuttingDown Event.isShutdownCalled st.log ∧
    (∀ d, Event.ShutdownCalled d ∈ st.log → d = 20) ∧
    (∀ s, Precedes (fun e => e == .SignalReceived s) (fun e => e == .LogShuttingDown s) st.log)
    := by
  have hinv := Inv_of_reachable cl env st h
  refine ⟨?_, ?_, ?_, ?_, ?_, ?_, ?_⟩
  · rw [← filter_filter_of_imp Event.sigStep Event.ofSig st.log sigStep_ofSig, hinv.sig]
    cases st.sig with
    | notStarted => exact ⟨.SIGINT, none, _, rfl⟩
    | waitSignal => exact ⟨.SIGINT, none, _, rfl⟩
    | logShutting s => exact ⟨s, none, _, rfl⟩
    | callShutdown s => exact ⟨s, none, _, rfl⟩
    | inShutdown s => exact ⟨s, none, _, rfl⟩
    | afterShutdown s err => exact ⟨s, err, _, rfl⟩
    | sendErr s e => exact ⟨s, some e, _, rfl⟩
    | logCompleting s e => exact ⟨s, some e, _, rfl⟩
    | callWait s err => cases err <;> exact ⟨s, _, _, rfl⟩
    | inWait s err => cases err <;> exact ⟨s, _, _, rfl⟩
    | afterWait s err => cases err <;> exact ⟨s, _, _, rfl⟩
    | sendNil s err => cases err <;> exact ⟨s, _, _, rfl⟩
    | done s err => cases err <;> exact ⟨s, _, _, rfl⟩
  · apply Precedes_of_sigTrace hinv _ _ isShutdownReturned_ofSig (ofSig_of_beq .LogCompleting rfl)
    cases st.sig <;> try rfl
    all_goals
      rename_i s err
      cases err <;> rfl
  · apply Precedes_of_sigTrace hinv _ _ isShutdownReturned_ofSig (ofSig_of_beq .WaitCalled rfl)
    cases st.sig <;> try rfl
    all_goals
      rename_i s err
      cases err <;> rfl
  · apply Precedes_of_sigTrace hinv _ _ (ofSig_of_beq (.ShutdownCalled 20) rfl)
      isShutdownReturned_ofSig
    cases st.sig <;> try rfl
    all_goals
      rename_i s err
      cases err <;> rfl
  · apply Precedes_of_sigTrace hinv _ _ isLogShuttingDown_ofSig isShutdownCalled_ofSig
    cases st.sig <;> try rfl
    all_goals
      rename_i s err
      cases err <;> rfl
  · intro d hd
    rw [mem_log_iff_sigTrace hinv (.ShutdownCalled d) rfl] at hd
    cases hg : st.sig <;> rw [hg] at hd <;>
      simp [sigTrace, shutdownEvents] at hd <;> first | exact hd | skip
    all_goals
      rename_i s err
      cases err <;> simp at hd <;> exact hd
  · intro s0
    apply Precedes_of_sigTrace hinv _ _ (ofSig_of_beq (.SignalReceived s0) rfl)
      (ofSig_of_beq (.LogShuttingDown s0) rfl)
    rcases st.sig with _ | _ | s | s | s | ⟨s, err⟩ | ⟨s, e⟩ | ⟨s, e⟩ | ⟨s, err⟩ | ⟨s, err⟩ |
      ⟨s, err⟩ | ⟨s, err⟩ | ⟨s, err⟩
    case notStarted => rfl
    case waitSignal => rfl
    all_goals
      first
        | (by_cases hs : s = s0 <;> simp [sigTrace, shutdownEvents, precedesFrom, hs]; done)
        | (cases err <;> by_cases hs : s = s0 <;>
            simp [sigTrace, shutdownEvents, precedesFrom, hs])

theorem mainTrace_listen_failure (cl : CommandLine) (env : Env) (pc : MainPc) (e : GoError)
    (he : isErrServerClosed e = false)
    (hmem : Event.ListenAndServeReturned e ∈ mainTrace cl env pc) :
    Event.RecvAttempt ∉ mainTrace cl env pc ∧ (∀ v, Event.ChanTransfer v ∉ mainTrace cl env pc) ∧
    Event.LogStopped ∉ mainTrace cl env pc ∧
    (∀ r, Event.ServeReturned r ∈ mainTrace cl env pc → r = some e) ∧
    (∀ c, Event.Exit c ∈ mainTrace cl env pc → c = 1) := by
  have hne : e ≠ .ErrServerClosed := by
    intro h; subst h; simp [isErrServerClosed] at he
  cases pc with
  | serveReturn x =>
    cases x <;> simp_all [mainTrace, startupEvents, serveExitEvents, ServeExit.value]
  | afterServe x =>
    cases x <;> simp_all [mainTrace, startupEvents, serveExitEvents, ServeExit.value]
  | exited x =>
    cases x with
    | openDBFailed =>
      simp only [mainTrace] at hmem ⊢
      split at hmem <;> simp_all [PrintFatal]
    | serveFailed y =>
      cases y <;>
        simp_all [mainTrace, startupEvents, serveExitEvents, ServeExit.value, PrintFatal]
    | _ => simp_all [mainTrace, startupEvents, serveExitEvents, ServeExit.value]
  | _ => simp_all [mainTrace, startupEvents, serveExitEvents, ServeExit.value]

/-- C4: when `srv.ListenAndServe` returns a value `e` other than `http.ErrServerClosed`,
`serve` returns `e` to `main` in its next step, whatever the signal goroutine is doing, and
`main` logs it as fatal and exits with code 1; in such an execution `serve` never starts a
receive on the channel, no value passes through it, "stopped server" is not logged, and
`serve` returns nothing but `e`. -/
theorem listen_failure_is_fatal (cl : CommandLine) (env : Env) (st : State) (e : GoError)
    (h : Reachable cl env st) (he : isErrServerClosed e = false) :
    (st.main = .inListenAndServe →
      run cl env st [.listenReturns e, .main, .main] =
        some { st with main := .afterServe (.fatal e),
                       log := st.log ++ [.ListenAndServeReturned e, .ServeReturned (some e)] } ∧
      run cl env st [.listenReturns e, .main, .main, .main] =
        some { st with main := .exited (.serveFailed (.fatal e)),
                       log := st.log ++ [.ListenAndServeReturned e, .ServeReturned (some e),
                         .LogFatal e, .Exit 1] }) ∧
    (Event.ListenAndServeReturned e ∈ st.log →
      Event.RecvAttempt ∉ st.log ∧ (∀ v, Event.ChanTransfer v ∉ st.log) ∧
      Event.LogStopped ∉ st.log ∧ (∀ r, Event.ServeReturned r ∈ st.log → r = some e) ∧
      (∀ c, Event.Exit c ∈ st.log → c = 1)) := by
  have hinv := Inv_of_reachable cl env st h
  constructor
  · intro hpc
    obtain ⟨m, g, log⟩ := st
    simp only at hpc
    subst hpc
    simp [run, step, main, serve, MainPc.alive, he, ServeExit.value, PrintFatal]
  · intro hmem
    rw [mem_log_iff_mainTrace hinv (.ListenAndServeReturned e) rfl] at hmem
    obtain ⟨h1, h2, h3, h4, h5⟩ := mainTrace_listen_failure cl env st.main e he hmem
    refine ⟨?_, ?_, ?_, ?_, ?_⟩
    · rw [mem_log_iff_mainTrace hinv .RecvAttempt rfl]; exact h1
    · intro v; rw [mem_log_iff_mainTrace hinv (.ChanTransfer v) rfl]; exact h2 v
    · rw [mem_log_iff_mainTrace hinv .LogStopped rfl]; exact h3
    · intro r hr; rw [mem_log_iff_mainTrace hinv (.ServeReturned r) rfl] at hr; exact h4 r hr
    · intro c hc; rw [mem_log_iff_mainTrace hinv (.Exit c) rfl] at hc; exact h5 c hc

/-! ### The outcome of a shutdown -/

theorem mainTrace_transfer_unique (cl : CommandLine) (env : Env) (m : MainPc)
    (v v' : Option GoError) (h : Event.ChanTransfer v ∈ mainTrace cl env m)
    (h' : Event.ChanTransfer v' ∈ mainTrace cl env m) : v = v' := by
  cases m with
  | serveReturn x =>
    cases x <;> simp_all [mainTrace, startupEvents, serveExitEvents, ServeExit.value]
  | afterServe x =>
    cases x <;> simp_all [mainTrace, startupEvents, serveExitEvents, ServeExit.value]
  | exited x =>
    cases x with
    | openDBFailed =>
      simp only [mainTrace] at h
      split at h <;> simp_all [PrintFatal]
    | serveFailed y =>
      cases y <;>
        simp_all [mainTrace, startupEvents, serveExitEvents, ServeExit.value, PrintFatal]
    | _ => simp_all [mainTrace, startupEvents, serveExitEvents, ServeExit.value]
  | _ => simp_all [mainTrace, startupEvents, serveExitEvents, ServeExit.value]

theorem mainTrace_after_closed (cl : CommandLine) (env : Env) (m : MainPc)
    (hw : m.wf = true)
    (hclosed : Event.ListenAndServeReturned .ErrServerClosed ∈ mainTrace cl env m) :
    (∀ r, Event.ServeReturned r ∈ mainTrace cl env m →
      Event.ChanTransfer r ∈ mainTrace cl env m) ∧
    (Event.LogStopped ∈ mainTrace cl env m → Event.ChanTransfer none ∈ mainTrace cl env m) ∧
    (∀ c, Event.Exit c ∈ mainTrace cl env m →
      (c = 0 ∧ Event.ChanTransfer none ∈ mainTrace cl env m) ∨
      (c = 1 ∧ ∃ e, Event.ChanTransfer (some e) ∈ mainTrace cl env m)) := by
  cases m with
  | serveReturn x =>
    cases x <;>
      simp_all [mainTrace, startupEvents, serveExitEvents, ServeExit.value, MainPc.wf,
        ServeExit.wf, isErrServerClosed]
  | afterServe x =>
    rcases x with e0 | e0 | _
    · cases e0 <;>
        simp_all [mainTrace, startupEvents, serveExitEvents, ServeExit.value, MainPc.wf,
          ServeExit.wf, isErrServerClosed]
    · simp_all [mainTrace, startupEvents, serveExitEvents, ServeExit.value]
    · simp_all [mainTrace, startupEvents, serveExitEvents, ServeExit.value]
  | exited x =>
    cases x with
    | openDBFailed =>
      simp only [mainTrace] at hclosed
      split at hclosed <;> simp_all [PrintFatal]
    | serveFailed y =>
      rcases y with e0 | e0 | _
      · cases e0 <;>
          simp_all [mainTrace, startupEvents, serveExitEvents, ServeExit.value, PrintFatal,
            MainPc.wf, ServeExit.wf, isErrServerClosed]
      · simp_all [mainTrace, startupEvents, serveExitEvents, ServeExit.value, PrintFatal]
      · simp_all [mainTrace, startupEvents, serveExitEvents, ServeExit.value, PrintFatal,
          MainPc.wf]
    | _ => simp_all [mainTrace, startupEvents, serveExitEvents, ServeExit.value]
  | _ => simp_all [mainTrace, startupEvents, serveExitEvents, ServeExit.value]

theorem sigTrace_transfer_is_outcome (g : SigPc) (r v : Option GoError)
    (huniq : ∀ v v', Event.ChanTransfer v ∈ sigTrace g → Event.ChanTransfer v' ∈ sigTrace g →
      v = v')
    (hsd : Event.ShutdownReturned r ∈ sigTrace g) (hv : Event.ChanTransfer v ∈ sigTrace g) :
    v = r := by
  rcases g with _ | _ | s | s | s | ⟨s, err⟩ | ⟨s, e⟩ | ⟨s, e⟩ | ⟨s, err⟩ | ⟨s, err⟩ |
    ⟨s, err⟩ | ⟨s, err⟩ | ⟨s, err⟩
  case done =>
    cases err with
    | none => simp_all [sigTrace, shutdownEvents]
    | some e =>
      have := huniq (some e) none (by simp [sigTrace, shutdownEvents])
        (by simp [sigTrace, shutdownEvents])
      exact absurd this (by simp)
  all_goals first
    | (simp_all [sigTrace, shutdownEvents]; done)
    | (cases err <;> simp_all [sigTrace, shutdownEvents])

theorem logStopped_before_serveReturned_nil {cl : CommandLine} {env : Env} {st : State}
    (hinv : Inv cl env st) :
    Precedes (fun e => e == .LogStopped) (fun e => e == .ServeReturned none) st.log := by
  apply Precedes_of_mainTrace hinv _ _ (ofMain_of_beq .LogStopped rfl)
    (ofMain_of_beq (.ServeReturned none) rfl)
  cases st.main with
  | start => rfl
  | serveReturn x =>
    cases x <;>
    simp [mainTrace, startupEvents, precedesFrom_store, precedesFrom, serveExitEvents]
  | afterServe x =>
    cases x <;>
    simp [mainTrace, startupEvents, precedesFrom_store, precedesFrom, serveExitEvents,
      ServeExit.value]
  | exited x =>
    cases x with
    | openDBFailed =>
      simp only [mainTrace]
      split <;> simp [precedesFrom_store, precedesFrom_store_only, precedesFrom, PrintFatal]
    | serveFailed y =>
      cases y <;>
      simp [mainTrace, startupEvents, precedesFrom_store, precedesFrom, serveExitEvents,
        ServeExit.value, PrintFatal]
    | _ => simp [mainTrace, startupEvents, precedesFrom_store, precedesFrom, serveExitEvents]
  | _ => simp [mainTrace, startupEvents, precedesFrom_store, precedesFrom, serveExitEvents]

/-- C5: in an execution in which `ListenAndServe` has returned `http.ErrServerClosed` and
`srv.Shutdown` has returned `r`, whatever `serve` returns is `r`; "stopped server" is logged
only when `r` is nil, and before `serve` returns nil; the process exits with 0 when `r` is
nil and with 1 otherwise. And `serve` does return: from any such state, moves that need
nothing from outside but the return of `wg.Wait` lead to `serve` returning `r`, with "stopped
server" logged exactly when `r` is nil, and to the exit of the process with that code. -/
theorem shutdown_outcome_decides_serve (cl : CommandLine) (env : Env) (st : State)
    (r : Option GoError) (h : Reachable cl env st)
    (hclosed : Event.ListenAndServeReturned .ErrServerClosed ∈ st.log)
    (hsd : Event.ShutdownReturned r ∈ st.log) :
    (∀ r', Event.ServeReturned r' ∈ st.log → r' = r) ∧
    (Event.LogStopped ∈ st.log → r = none) ∧
    Precedes (fun e => e == .LogStopped) (fun e => e == .ServeReturned none) st.log ∧
    (∀ c, Event.Exit c ∈ st.log → c = if r = none then 0 else 1) ∧
    ∃ schedule st', (∀ a ∈ schedule, Action.internal a = true) ∧
      run cl env st schedule = some st' ∧
      Event.ServeReturned r ∈ st'.log ∧ (Event.LogStopped ∈ st'.log ↔ r = none) ∧
      Event.Exit (if r = none then 0 else 1) ∈ st'.log := by
  have hinv := Inv_of_reachable cl env st h
  have hagree := chanTransfer_agree hinv
  rw [mem_log_iff_mainTrace hinv (.ListenAndServeReturned .ErrServerClosed) rfl] at hclosed
  rw [mem_log_iff_sigTrace hinv (.ShutdownReturned r) rfl] at hsd
  have huniq : ∀ v v', Event.ChanTransfer v ∈ sigTrace st.sig →
      Event.ChanTransfer v' ∈ sigTrace st.sig → v = v' := fun v v' hv hv' =>
    mainTrace_transfer_unique cl env st.main v v' ((hagree v).mpr hv) ((hagree v').mpr hv')
  have key : ∀ v, Event.ChanTransfer v ∈ mainTrace cl env st.main → v = r := fun v hv =>
    sigTrace_transfer_is_outcome st.sig r v huniq hsd ((hagree v).mp hv)
  obtain ⟨f1, f2, f3⟩ := mainTrace_after_closed cl env st.main hinv.wf hclosed
  refine ⟨?_, ?_, logStopped_before_serveReturned_nil hinv, ?_, ?_⟩
  · intro r' hr'
    rw [mem_log_iff_mainTrace hinv (.ServeReturned r') rfl] at hr'
    exact key r' (f1 r' hr')
  · intro hl
    rw [mem_log_iff_mainTrace hinv .LogStopped rfl] at hl
    exact (key none (f2 hl)).symm
  · intro c hc
    rw [mem_log_iff_mainTrace hinv (.Exit c) rfl] at hc
    rcases f3 c hc with ⟨rfl, hv⟩ | ⟨rfl, e, hv⟩
    · rw [← key none hv]; rfl
    · rw [← key (some e) hv]; rfl
  · obtain ⟨schedule, hint, hrun⟩ := settle_run cl env 12 st
    have hmain := settle_after_shutdown cl env st.main st.sig st.log r hagree hinv.wf hclosed
      hsd key
    have hinv' := Inv_of_reachable cl env _ (h.run hrun)
    refine ⟨schedule, _, hint, hrun, ?_, ?_, ?_⟩
    · rw [mem_log_iff_mainTrace hinv' (.ServeReturned r) rfl, hmain]
      cases r <;> simp [exitAfterShutdown, mainTrace, serveExitEvents, ServeExit.value]
    · rw [mem_log_iff_mainTrace hinv' .LogStopped rfl, hmain]
      cases r <;>
        simp [exitAfterShutdown, mainTrace, startupEvents, serveExitEvents, ServeExit.value,
          PrintFatal]
    · rw [mem_log_iff_mainTrace hinv' (.Exit _) rfl, hmain]
      cases r <;>
        simp [exitAfterShutdown, mainTrace, serveExitEvents, ServeExit.value, PrintFatal]

/-! ### A store that cannot be opened -/

theorem step_exited (cl : CommandLine) (env : Env) (x : ExitPoint) (g : SigPc)
    (log : List Event) (a : Action) :
    step cl env { main := .exited x, sig := g, log := log } a = none := by
  simp [step, MainPc.alive]

theorem run_exited (cl : CommandLine) (env : Env) (x : ExitPoint) (g : SigPc)
    (log : List Event) (schedule : List Action) (st : State)
    (h : run cl env { main := .exited x, sig := g, log := log } schedule = some st) :
    st = { main := .exited x, sig := g, log := log } := by
  cases schedule with
  | nil =>
    simp only [run, Option.some.injEq] at h
    exact h.symm
  | cons a rest =>
    simp [run, step_exited] at h

/-- C7: when `openDB` returns an error, the first step of `main` logs it as fatal and ends
the process with exit code 1; nothing can move afterwards, and no state of the execution
has `serve` called, the signal goroutine started or `ListenAndServe` called. -/
theorem openDB_failure_never_serves (cl : CommandLine) (env : Env) (e : GoError)
    (hv : cl.displayVersion = false) (herr : (openDB env cl.cfg).1.2 = some e) :
    run cl env init [.main] = some (openDBFailedState cl env e) ∧
    (∀ a, step cl env (openDBFailedState cl env e) a = none) ∧
    (∀ st, Reachable cl env st →
      (st = init ∨ st = openDBFailedState cl env e) ∧
      Event.ServeCalled ∉ st.log ∧ Event.GoSignalGoroutine ∉ st.log ∧
      Event.ListenAndServeCalled ∉ st.log) := by
  have hstep : step cl env init .main = some (openDBFailedState cl env e) := by
    unfold openDBFailedState
    rcases hdb : openDB env cl.cfg with ⟨⟨db, err⟩, ops⟩
    rw [hdb] at herr
    simp only at herr
    subst herr
    simp [step, main, serve, init, MainPc.alive, hv, hdb, PrintFatal]
  have hreach : ∀ st, Reachable cl env st → (st = init ∨ st = openDBFailedState cl env e) := by
    rintro st ⟨schedule, hrun⟩
    cases schedule with
    | nil =>
      simp only [run, Option.some.injEq] at hrun
      exact Or.inl hrun.symm
    | cons a rest =>
      right
      simp only [run] at hrun
      cases a with
      | main =>
        rw [hstep] at hrun
        exact run_exited cl env _ _ _ rest st hrun
      | _ => simp [step, stepSig, init, MainPc.alive] at hrun
  refine ⟨?_, fun a => step_exited cl env _ _ _ a, fun st hst => ⟨hreach st hst, ?_⟩⟩
  · simp [run, hstep]
  · rcases hreach st hst with rfl | rfl
    · simp [init]
    · simp [openDBFailedState]

/-! ### The handoff of the shutdown outcome -/

/-- C1 (the code departs from it): on a shutdown whose `srv.Shutdown` returns
`context.DeadlineExceeded` after `ListenAndServe` returned `http.ErrServerClosed`, the error
passes through the channel at once, `serve` returns it and the process exits with code 1,
while `app.wg.Wait` has not even been called. -/
theorem serve_returns_shutdown_error_before_drain :
    ∃ st, run sampleCommandLine sampleEnv init shutdownTimeoutSchedule = some st ∧
      st.main = .exited (.serveFailed (.shutdownErr .DeadlineExceeded)) ∧
      st.sig = .logCompleting .SIGTERM .DeadlineExceeded ∧
      Event.ListenAndServeReturned .ErrServerClosed ∈ st.log ∧
      Event.ShutdownReturned (some .DeadlineExceeded) ∈ st.log ∧
      Event.ServeReturned (some .DeadlineExceeded) ∈ st.log ∧
      Event.Exit 1 ∈ st.log ∧
      Event.LogCompleting ∉ st.log ∧ Event.WaitCalled ∉ st.log ∧ Event.WaitReturned ∉ st.log ∧
      ¬ Precedes (fun e => e == .WaitReturned)
          (fun e => e == .ServeReturned (some .DeadlineExceeded)) st.log := by
  cases hrun : run sampleCommandLine sampleEnv init shutdownTimeoutSchedule with
  | none => exact absurd hrun (by decide)
  | some st =>
    have hall : (run sampleCommandLine sampleEnv init shutdownTimeoutSchedule).map
        (fun s => decide (s.main = .exited (.serveFailed (.shutdownErr .DeadlineExceeded)) ∧
          s.sig = .logCompleting .SIGTERM .DeadlineExceeded ∧
          Event.ListenAndServeReturned .ErrServerClosed ∈ s.log ∧
          Event.ShutdownReturned (some .DeadlineExceeded) ∈ s.log ∧
          Event.ServeReturned (some .DeadlineExceeded) ∈ s.log ∧
          Event.Exit 1 ∈ s.log ∧
          Event.LogCompleting ∉ s.log ∧ Event.WaitCalled ∉ s.log ∧
          Event.WaitReturned ∉ s.log ∧
          precedesFrom (fun e => e == .WaitReturned)
            (fun e => e == .ServeReturned (some .DeadlineExceeded)) false s.log = false))
        = some true := by decide
    rw [hrun] at hall
    simp only [Option.map_some', Option.some.injEq, decide_eq_true_eq] at hall
    obtain ⟨h1, h2, h3, h4, h5, h6, h7, h8, h9, h10⟩ := hall
    refine ⟨st, rfl, h1, h2, h3, h4, h5, h6, h7, h8, h9, ?_⟩
    rw [Precedes_iff, h10]
    simp

/-- C2 as stated fails in two ways. After a `srv.Shutdown` error the signal goroutine starts
a second send, the nil after `app.wg.Wait`, which nobody receives; and when `ListenAndServe`
fails with another error, `serve` returns without reading the channel, so that the send of
the signal goroutine never completes. -/
theorem completion_channel_not_exactly_once :
    (∃ st, run sampleCommandLine sampleEnv init secondSendSchedule = some st ∧
      Event.SignalReceived .SIGTERM ∈ st.log ∧
      Event.ServeReturned (some .DeadlineExceeded) ∈ st.log ∧
      st.sig = .sendNil .SIGTERM (some .DeadlineExceeded) ∧
      st.log.countP Event.isSendAttempt = 2 ∧ st.log.countP Event.isChanTransfer = 1) ∧
    (∃ st, run sampleCommandLine sampleEnv init listenFailureSchedule = some st ∧
      Event.SignalReceived .SIGTERM ∈ st.log ∧
      Event.ServeReturned (some (.Other 98)) ∈ st.log ∧
      st.sig = .sendNil .SIGTERM none ∧
      st.log.countP Event.isSendAttempt = 1 ∧ st.log.countP Event.isChanTransfer = 0 ∧
      Event.RecvAttempt ∉ st.log) := by
  constructor
  · cases hrun : run sampleCommandLine sampleEnv init secondSendSchedule with
    | none => exact absurd hrun (by decide)
    | some st =>
      have hall : (run sampleCommandLine sampleEnv init secondSendSchedule).map
          (fun s => decide (Event.SignalReceived .SIGTERM ∈ s.log ∧
            Event.ServeReturned (some .DeadlineExceeded) ∈ s.log ∧
            s.sig = .sendNil .SIGTERM (some .DeadlineExceeded) ∧
            s.log.countP Event.isSendAttempt = 2 ∧ s.log.countP Event.isChanTransfer = 1))
          = some true := by decide
      rw [hrun] at hall
      simp only [Option.map_some', Option.some.injEq, decide_eq_true_eq] at hall
      exact ⟨st, rfl, hall⟩
  · cases hrun : run sampleCommandLine sampleEnv init listenFailureSchedule with
    | none => exact absurd hrun (by decide)
    | some st =>
      have hall : (run sampleCommandLine sampleEnv init listenFailureSchedule).map
          (fun s => decide (Event.SignalReceived .SIGTERM ∈ s.log ∧
            Event.ServeReturned (some (.Other 98)) ∈ s.log ∧
            s.sig = .sendNil .SIGTERM none ∧
            s.log.countP Event.isSendAttempt = 1 ∧ s.log.countP Event.isChanTransfer = 0 ∧
            Event.RecvAttempt ∉ s.log))
          = some true := by decide
      rw [hrun] at hall
      simp only [Option.map_some', Option.some.injEq, decide_eq_true_eq] at hall
      exact ⟨st, rfl, hall⟩

theorem isChanTransfer_ofMain :
    ∀ e, Event.isChanTransfer e = true → Event.ofMain e = true := by
  intro e h
  cases e <;> first | rfl | exact absurd h (by simp [Event.isChanTransfer])

theorem isSendAttempt_ofSig :
    ∀ e, Event.isSendAttempt e = true → Event.ofSig e = true := by
  intro e h
  cases e <;> first | rfl | exact absurd h (by simp [Event.isSendAttempt])

theorem mainTrace_counts (cl : CommandLine) (env : Env) (m : MainPc) (hw : m.wf = true) :
    (mainTrace cl env m).countP Event.isChanTransfer ≤ 1 ∧
    (mainTrace cl env m).countP (fun e => e == .RecvAttempt) ≤ 1 ∧
    (Event.ListenAndServeReturned .ErrServerClosed ∈ mainTrace cl env m →
      (∃ r, Event.ServeReturned r ∈ mainTrace cl env m) →
      (mainTrace cl env m).countP Event.isChanTransfer = 1 ∧
      (mainTrace cl env m).countP (fun e => e == .RecvAttempt) = 1 ∧
      ∃ v, Event.ChanTransfer v ∈ mainTrace cl env m) := by
  have hs1 : ∀ ops : List DBOp, (ops.map Event.Store).countP Event.isChanTransfer = 0 :=
    fun ops => countP_store _ ops (fun _ => rfl)
  have hs2 : ∀ ops : List DBOp,
      (ops.map Event.Store).countP (fun e => e == .RecvAttempt) = 0 :=
    fun ops => countP_store _ ops (fun _ => rfl)
  cases m with
  | serveReturn x =>
    cases x <;>
      simp [mainTrace, startupEvents, serveExitEvents, ServeExit.value, List.countP_cons,
        Event.isChanTransfer, hs1, hs2]
  | afterServe x =>
    rcases x with e0 | e0 | _
    · cases e0
      · simp [MainPc.wf, ServeExit.wf, isErrServerClosed] at hw
      all_goals
        simp [mainTrace, startupEvents, serveExitEvents, ServeExit.value, List.countP_cons,
          Event.isChanTransfer, hs1, hs2]
    · simp [mainTrace, startupEvents, serveExitEvents, ServeExit.value, List.countP_cons,
        Event.isChanTransfer, hs1, hs2]
    · simp [mainTrace, startupEvents, serveExitEvents, ServeExit.value, List.countP_cons,
        Event.isChanTransfer, hs1, hs2]
  | exited x =>
    cases x with
    | openDBFailed =>
      simp only [mainTrace]
      split <;> simp [PrintFatal, List.countP_cons, Event.isChanTransfer, hs1, hs2]
    | serveFailed y =>
      rcases y with e0 | e0 | _
      · cases e0
        · simp [MainPc.wf, ServeExit.wf, isErrServerClosed] at hw
        all_goals
          simp [mainTrace, startupEvents, serveExitEvents, ServeExit.value, List.countP_cons,
            Event.isChanTransfer, hs1, hs2, PrintFatal]
      · simp [mainTrace, startupEvents, serveExitEvents, ServeExit.value, List.countP_cons,
          Event.isChanTransfer, hs1, hs2, PrintFatal]
      · simp [mainTrace, startupEvents, serveExitEvents, ServeExit.value, List.countP_cons,
          Event.isChanTransfer, hs1, hs2, PrintFatal]
    | _ =>
      simp [mainTrace, startupEvents, serveExitEvents, ServeExit.value, List.countP_cons,
        Event.isChanTransfer, hs1, hs2]
  | _ =>
    simp [mainTrace, startupEvents, serveExitEvents, ServeExit.value, List.countP_cons,
      Event.isChanTransfer, hs1, hs2]

theorem sigTrace_counts (g : SigPc) (hsd : Event.ShutdownReturned none ∈ sigTrace g) :
    (sigTrace g).countP Event.isSendAttempt ≤ 1 ∧
    (∀ v, Event.SendAttempt v ∈ sigTrace g → v = none) ∧
    precedesFrom (fun e => e == .WaitReturned) Event.isSendAttempt false (sigTrace g) = true ∧
    (∀ v, Event.ChanTransfer v ∈ sigTrace g → (sigTrace g).countP Event.isSendAttempt = 1) := by
  rcases g with _ | _ | s | s | s | ⟨s, err⟩ | ⟨s, e⟩ | ⟨s, e⟩ | ⟨s, err⟩ | ⟨s, err⟩ |
    ⟨s, err⟩ | ⟨s, err⟩ | ⟨s, err⟩
  all_goals first
    | (simp [sigTrace, shutdownEvents] at hsd; done)
    | (cases err <;> first
        | (simp [sigTrace, shutdownEvents] at hsd; done)
        | simp [sigTrace, shutdownEvents, List.countP_cons, Event.isSendAttempt, precedesFrom])

/-- C2 as amended: at no time has more than one value passed through the `shutdownError`
channel or has `serve` started more than one receive; once `serve` has returned after
`ListenAndServe` returned `http.ErrServerClosed`, exactly one value has passed and `serve`
has read exactly once, whether or not `srv.Shutdown` returned an error; when `srv.Shutdown`
returned no error the signal goroutine starts at most one send, of nil and after
`app.wg.Wait` has returned, and exactly one once `serve` has returned; and when
`ListenAndServe` returned another error `serve` starts no receive and no value passes. -/
theorem completion_channel_once_on_shutdown (cl : CommandLine) (env : Env) (st : State)
    (h : Reachable cl env st) :
    st.log.countP Event.isChanTransfer ≤ 1 ∧
    st.log.countP (fun e => e == .RecvAttempt) ≤ 1 ∧
    (Event.ListenAndServeReturned .ErrServerClosed ∈ st.log →
      (∃ r, Event.ServeReturned r ∈ st.log) →
      st.log.countP Event.isChanTransfer = 1 ∧
      st.log.countP (fun e => e == .RecvAttempt) = 1) ∧
    (Event.ShutdownReturned none ∈ st.log →
      st.log.countP Event.isSendAttempt ≤ 1 ∧
      (∀ v, Event.SendAttempt v ∈ st.log → v = none) ∧
      Precedes (fun e => e == .WaitReturned) Event.isSendAttempt st.log ∧
      (Event.ListenAndServeReturned .ErrServerClosed ∈ st.log →
        (∃ r, Event.ServeReturned r ∈ st.log) →
        st.log.countP Event.isSendAttempt = 1)) ∧
    (∀ e, isErrServerClosed e = false → Event.ListenAndServeReturned e ∈ st.log →
      Event.RecvAttempt ∉ st.log ∧ st.log.countP Event.isChanTransfer = 0) := by
  have hinv := Inv_of_reachable cl env st h
  have hagree := chanTransfer_agree hinv
  obtain ⟨m1, m2, m3⟩ := mainTrace_counts cl env st.main hinv.wf
  have c1 : st.log.countP Event.isChanTransfer =
      (mainTrace cl env st.main).countP Event.isChanTransfer := by
    rw [← hinv.main, countP_filter_of_imp _ _ _ isChanTransfer_ofMain]
  have c2 : st.log.countP (fun e => e == .RecvAttempt) =
      (mainTrace cl env st.main).countP (fun e => e == .RecvAttempt) := by
    rw [← hinv.main, countP_filter_of_imp _ _ _ (ofMain_of_beq .RecvAttempt rfl)]
  have c3 : st.log.countP Event.isSendAttempt = (sigTrace st.sig).countP Event.isSendAttempt := by
    rw [← hinv.sig, countP_filter_of_imp _ _ _ isSendAttempt_ofSig]
  have hserve : Event.ListenAndServeReturned .ErrServerClosed ∈ st.log →
      (∃ r, Event.ServeReturned r ∈ st.log) →
      (mainTrace cl env st.main).countP Event.isChanTransfer = 1 ∧
      (mainTrace cl env st.main).countP (fun e => e == .RecvAttempt) = 1 ∧
      ∃ v, Event.ChanTransfer v ∈ mainTrace cl env st.main := by
    intro hc hr
    obtain ⟨r, hr⟩ := hr
    rw [mem_log_iff_mainTrace hinv (.ListenAndServeReturned .ErrServerClosed) rfl] at hc
    rw [mem_log_iff_mainTrace hinv (.ServeReturned r) rfl] at hr
    exact m3 hc ⟨r, hr⟩
  refine ⟨c1 ▸ m1, c2 ▸ m2, ?_, ?_, ?_⟩
  · intro hc hr
    obtain ⟨k1, k2, -⟩ := hserve hc hr
    exact ⟨c1.trans k1, c2.trans k2⟩
  · intro hsd
    rw [mem_log_iff_sigTrace hinv (.ShutdownReturned none) rfl] at hsd
    obtain ⟨s1, s2, s3, s4⟩ := sigTrace_counts st.sig hsd
    refine ⟨c3 ▸ s1, ?_, ?_, ?_⟩
    · intro v hv
      rw [mem_log_iff_sigTrace hinv (.SendAttempt v) rfl] at hv
      exact s2 v hv
    · exact Precedes_of_sigTrace hinv _ _ (ofSig_of_beq .WaitReturned rfl)
        isSendAttempt_ofSig s3
    · intro hc hr
      obtain ⟨-, -, v, hv⟩ := hserve hc hr
      exact c3.trans (s4 v ((hagree v).mp hv))
  · intro e he hmem
    rw [mem_log_iff_mainTrace hinv (.ListenAndServeReturned e) rfl] at hmem
    obtain ⟨k1, k2, -⟩ := mainTrace_listen_failure cl env st.main e he hmem
    refine ⟨?_, ?_⟩
    · rw [mem_log_iff_mainTrace hinv .RecvAttempt rfl]; exact k1
    · rw [c1, List.countP_eq_zero]
      intro x hx hxt
      cases x <;> first
        | exact k2 _ hx
        | simp [Event.isChanTransfer] at hxt

/-! ## The claims on sample executions -/

theorem gracefulEnd_reachable : Reachable sampleCommandLine sampleEnv gracefulEnd :=
  ⟨gracefulSchedule, by decide⟩

theorem servingState_reachable : Reachable sampleCommandLine sampleEnv servingState :=
  ⟨[.main, .main, .main, .main], by decide⟩

theorem drainingState_reachable : Reachable sampleCommandLine sampleEnv drainingState :=
  ⟨[.main, .main, .main, .main, .signal .SIGTERM, .sig, .sig, .listenReturns .ErrServerClosed, .main,
      .shutdownReturns none], by decide⟩

/-- C3 on the graceful shutdown of the default command line, in which the pool is closed. -/
theorem pool_closed_only_after_drain_witness :
    Reachable sampleCommandLine sampleEnv gracefulEnd ∧ Event.DBClose ∈ gracefulEnd.log ∧
    (Precedes Event.isServeReturned (fun e => e == .DBClose) gracefulEnd.log ∧
      Precedes (fun e => e == .WaitReturned) (fun e => e == .ServeReturned none)
        gracefulEnd.log ∧
      Precedes (fun e => e == .WaitReturned) (fun e => e == .DBClose) gracefulEnd.log) :=
  ⟨gracefulEnd_reachable, by decide,
    pool_closed_only_after_drain sampleCommandLine sampleEnv gracefulEnd gracefulEnd_reachable⟩

/-- C8 on the graceful shutdown, in which `app.wg.Wait` is called. -/
theorem shutdown_steps_in_fixed_order_witness :
    Reachable sampleCommandLine sampleEnv gracefulEnd ∧ Event.WaitCalled ∈ gracefulEnd.log ∧
    ((∃ s err rest, gracefulEnd.log.filter Event.sigStep ++ rest = shutdownOrder s err) ∧
      Precedes Event.isShutdownReturned (fun e => e == .LogCompleting) gracefulEnd.log ∧
      Precedes Event.isShutdownReturned (fun e => e == .WaitCalled) gracefulEnd.log ∧
      Precedes (fun e => e == .ShutdownCalled 20) Event.isShutdownReturned gracefulEnd.log ∧
      Precedes Event.isLogShuttingDown Event.isShutdownCalled gracefulEnd.log ∧
      (∀ d, Event.ShutdownCalled d ∈ gracefulEnd.log → d = 20) ∧
      (∀ s, Precedes (fun e => e == .SignalReceived s) (fun e => e == .LogShuttingDown s)
        gracefulEnd.log)) :=
  ⟨gracefulEnd_reachable, by decide,
    shutdown_steps_in_fixed_order sampleCommandLine sampleEnv gracefulEnd gracefulEnd_reachable⟩

/-- C4 on a listener that fails with another error while the process serves. -/
theorem listen_failure_is_fatal_witness :
    Reachable sampleCommandLine sampleEnv servingState ∧
    isErrServerClosed (.Other 98) = false ∧ servingState.main = .inListenAndServe ∧
    ((servingState.main = .inListenAndServe →
        run sampleCommandLine sampleEnv servingState [.listenReturns (.Other 98), .main, .main] =
          some { servingState with
            main := .afterServe (.fatal (.Other 98)),
            log := servingState.log ++
              [.ListenAndServeReturned (.Other 98), .ServeReturned (some (.Other 98))] } ∧
        run sampleCommandLine sampleEnv servingState
            [.listenReturns (.Other 98), .main, .main, .main] =
          some { servingState with
            main := .exited (.serveFailed (.fatal (.Other 98))),
            log := servingState.log ++
              [.ListenAndServeReturned (.Other 98), .ServeReturned (some (.Other 98)),
                .LogFatal (.Other 98), .Exit 1] }) ∧
      (Event.ListenAndServeReturned (.Other 98) ∈ servingState.log →
        Event.RecvAttempt ∉ servingState.log ∧ (∀ v, Event.ChanTransfer v ∉ servingState.log) ∧
        Event.LogStopped ∉ servingState.log ∧
        (∀ r, Event.ServeReturned r ∈ servingState.log → r = some (.Other 98)) ∧
        (∀ c, Event.Exit c ∈ servingState.log → c = 1))) :=
  ⟨servingState_reachable, rfl, by decide,
    listen_failure_is_fatal sampleCommandLine sampleEnv servingState (.Other 98)
      servingState_reachable rfl⟩

/-- C5 on a shutdown whose `srv.Shutdown` has returned nil. -/
theorem shutdown_outcome_decides_serve_witness :
    Reachable sampleCommandLine sampleEnv drainingState ∧
    Event.ListenAndServeReturned .ErrServerClosed ∈ drainingState.log ∧
    Event.ShutdownReturned none ∈ drainingState.log ∧
    ((∀ r', Event.ServeReturned r' ∈ drainingState.log → r' = none) ∧
      (Event.LogStopped ∈ drainingState.log → (none : Option GoError) = none) ∧
      Precedes (fun e => e == .LogStopped) (fun e => e == .ServeReturned none)
        drainingState.log ∧
      (∀ c, Event.Exit c ∈ drainingState.log →
        c = if (none : Option GoError) = none then 0 else 1) ∧
      ∃ schedule st', (∀ a ∈ schedule, Action.internal a = true) ∧
        run sampleCommandLine sampleEnv drainingState schedule = some st' ∧
        Event.ServeReturned none ∈ st'.log ∧
        (Event.LogStopped ∈ st'.log ↔ (none : Option GoError) = none) ∧
        Event.Exit (if (none : Option GoError) = none then 0 else 1) ∈ st'.log) :=
  ⟨drainingState_reachable, by decide, by decide,
    shutdown_outcome_decides_serve sampleCommandLine sampleEnv drainingState none
      drainingState_reachable (by decide) (by decide)⟩

/-- C7 on a store that does not answer the ping. -/
theorem openDB_failure_never_serves_witness :
    sampleCommandLine.displayVersion = false ∧
    (openDB silentStoreEnv sampleCommandLine.cfg).1.2 = some .DeadlineExceeded ∧
    (run sampleCommandLine silentStoreEnv init [.main] =
        some (openDBFailedState sampleCommandLine silentStoreEnv .DeadlineExceeded) ∧
      (∀ a, step sampleCommandLine silentStoreEnv
        (openDBFailedState sampleCommandLine silentStoreEnv .DeadlineExceeded) a = none) ∧
      (∀ st, Reachable sampleCommandLine silentStoreEnv st →
        (st = init ∨
          st = openDBFailedState sampleCommandLine silentStoreEnv .DeadlineExceeded) ∧
        Event.ServeCalled ∉ st.log ∧ Event.GoSignalGoroutine ∉ st.log ∧
        Event.ListenAndServeCalled ∉ st.log)) :=
  ⟨rfl, by decide,
    openDB_failure_never_serves sampleCommandLine silentStoreEnv .DeadlineExceeded rfl
      (by decide)⟩

/-- C2 as amended, on the graceful shutdown. -/
theorem completion_channel_once_on_shutdown_witness :
    Reachable sampleCommandLine sampleEnv gracefulEnd ∧
    Event.SignalReceived .SIGTERM ∈ gracefulEnd.log ∧
    (gracefulEnd.log.countP Event.isChanTransfer ≤ 1 ∧
      gracefulEnd.log.countP (fun e => e == .RecvAttempt) ≤ 1 ∧
      (Event.ListenAndServeReturned .ErrServerClosed ∈ gracefulEnd.log →
        (∃ r, Event.ServeReturned r ∈ gracefulEnd.log) →
        gracefulEnd.log.countP Event.isChanTransfer = 1 ∧
        gracefulEnd.log.countP (fun e => e == .RecvAttempt) = 1) ∧
      (Event.ShutdownReturned none ∈ gracefulEnd.log →
        gracefulEnd.log.countP Event.isSendAttempt ≤ 1 ∧
        (∀ v, Event.SendAttempt v ∈ gracefulEnd.log → v = none) ∧
        Precedes (fun e => e == .WaitReturned) Event.isSendAttempt gracefulEnd.log ∧
        (Event.ListenAndServeReturned .ErrServerClosed ∈ gracefulEnd.log →
          (∃ r, Event.ServeReturned r ∈ gracefulEnd.log) →
          gracefulEnd.log.countP Event.isSendAttempt = 1)) ∧
      (∀ e, isErrServerClosed e = false → Event.ListenAndServeReturned e ∈ gracefulEnd.log →
        Event.RecvAttempt ∉ gracefulEnd.log ∧
        gracefulEnd.log.countP Event.isChanTransfer = 0)) :=
  ⟨gracefulEnd_reachable, by decide,
    completion_channel_once_on_shutdown sampleCommandLine sampleEnv gracefulEnd
      gracefulEnd_reachable⟩

end Greenlight
